import Mathlib

/-!
Formalisation of the orchestration layer of the intelligent-knowledge-platform
repository: the task store (src/coordinator/task_queue.py), the agent registry
(src/coordinator/agent_manager.py), the message-broker call surface
(src/coordinator/message_broker.py) and the coordinator event handler
(src/coordinator/main.py).

Python dictionaries are modelled as insertion-ordered association lists over
String keys; datetime.now() is modelled by threading an explicit Nat clock
through every operation.  Each Python method that mutates state becomes a pure
Lean function from the old state to the new state, returning in addition the
value the method returns and the ordered list of message-broker calls it makes.
-/

namespace IKP

/-! ## Association lists modelling Python dict semantics -/

/-- Lookup of a key: the value of the first binding with that key, as Python
dict indexing (keys are unique in a dict, so first = only). -/
def dlookup {α : Type} (k : String) : List (String × α) → Option α
  | [] => none
  | (k', v) :: rest => if k' = k then some v else dlookup k rest

/-- Membership test for a key, as the Python expression key in dict. -/
def dmem {α : Type} (k : String) (l : List (String × α)) : Bool :=
  (dlookup k l).isSome

/-- Insertion, as Python dict assignment: replace the binding in place when
the key is present, otherwise append the new binding at the end (Python dicts
preserve insertion order). -/
def dinsert {α : Type} (k : String) (v : α) : List (String × α) → List (String × α)
  | [] => [(k, v)]
  | (k', v') :: rest => if k' = k then (k, v) :: rest else (k', v') :: dinsert k v rest

/-- Deletion of a key, as Python del dict[key]: every binding with the key is
dropped (a dict holds at most one, so this coincides with removing that one). -/
def derase {α : Type} (k : String) : List (String × α) → List (String × α)
  | [] => []
  | (k', v) :: rest => if k' = k then derase k rest else (k', v) :: derase k rest

/-- In-place update of the value bound to a key, as Python code that looks an
object up in a dict and mutates it: the first binding with the key is replaced
by f of its value, every other binding is untouched. -/
def dupdate {α : Type} (k : String) (f : α → α) : List (String × α) → List (String × α)
  | [] => []
  | (k', v) :: rest => if k' = k then (k', f v) :: rest else (k', v) :: dupdate k f rest

/-- Key list of an association list. -/
def dkeys {α : Type} (l : List (String × α)) : List String :=
  l.map Prod.fst

/-! ## Task store (src/coordinator/task_queue.py, class TaskQueue) -/

/-- Lifecycle status of a task, the status strings written by TaskQueue. -/
inductive TaskStatus where
  | pending
  | processing
  | completed
  | failed
  deriving DecidableEq, Repr

/-- Task record created by TaskQueue.add_task.  The opaque payload and the
result are kept as Strings; timestamps are the Nat clock values at which the
corresponding datetime.now() calls happen. -/
structure Task where
  id : String
  type : String
  data : String
  status : TaskStatus
  createdAt : Nat
  updatedAt : Nat
  agentType : String
  assignedTo : Option String
  result : Option String
  error : Option String
  deriving DecidableEq, Repr

/-- Entry of the per-task history list appended on every transition. -/
structure HistoryEntry where
  status : TaskStatus
  timestamp : Nat
  message : String
  deriving DecidableEq, Repr

/-- State of TaskQueue: the four status partitions plus the history map. -/
structure TaskQueueState where
  pendingTasks : List (String × Task)
  processingTasks : List (String × Task)
  completedTasks : List (String × Task)
  failedTasks : List (String × Task)
  taskHistory : List (String × List HistoryEntry)
  deriving DecidableEq, Repr

/-- Empty store built by TaskQueue.__init__. -/
def TaskQueueState.init : TaskQueueState :=
  { pendingTasks := [], processingTasks := [], completedTasks := [],
    failedTasks := [], taskHistory := [] }

/-- Static task-type to agent-type mapping of
TaskQueue._map_task_type_to_agent; an unmapped task type defaults to the task
type itself. -/
def mapTaskTypeToAgent : String → String
  | "scrape_web" => "scraper"
  | "scrape_pdf" => "scraper"
  | "scrape_academic" => "scraper"
  | "process_text" => "processor"
  | "process_image" => "processor"
  | "extract_concepts" => "processor"
  | "build_graph" => "knowledge"
  | "find_connections" => "knowledge"
  | "validate_knowledge" => "knowledge"
  | "recommend_content" => "learning"
  | "generate_quiz" => "learning"
  | "create_study_plan" => "learning"
  | "generate_visualization" => "ui"
  | "compose_dashboard" => "ui"
  | t => t

/-- TaskQueue.add_task.  The Python code generates the task id from a UUID
(coordinator/utils.build_task_id); the model receives the generated id as the
taskId argument.  The new record is stored pending and the history is
initialised; the method returns the task id. -/
def addTask (s : TaskQueueState) (taskId taskType taskData : String) (now : Nat) :
    TaskQueueState × String :=
  let task : Task :=
    { id := taskId, type := taskType, data := taskData, status := .pending,
      createdAt := now, updatedAt := now,
      agentType := mapTaskTypeToAgent taskType,
      assignedTo := none, result := none, error := none }
  ({ s with
      pendingTasks := dinsert taskId task s.pendingTasks,
      taskHistory := dinsert taskId
        [{ status := .pending, timestamp := now, message := "Task created" }]
        s.taskHistory },
   taskId)

/-- TaskQueue._assign_task: move a pending task to processing, stamp
assigned_to and updated_at, append history; silently return when the task is
not pending. -/
def tqAssignTask (s : TaskQueueState) (taskId agentId : String) (now : Nat) :
    TaskQueueState :=
  match dlookup taskId s.pendingTasks with
  | none => s
  | some task =>
    let task' := { task with status := .processing, assignedTo := some agentId,
                             updatedAt := now }
    { s with
        pendingTasks := derase taskId s.pendingTasks,
        processingTasks := dinsert taskId task' s.processingTasks,
        taskHistory := dupdate taskId
          (fun h => h ++ [{ status := .processing, timestamp := now,
                            message := "Task assigned to agent " ++ agentId }])
          s.taskHistory }

/-- TaskQueue.complete_task: only a task currently in processing is moved to
completed (with result recorded and history appended); otherwise the call logs
a warning and returns with the store unchanged. -/
def tqCompleteTask (s : TaskQueueState) (taskId : String) (result : String)
    (now : Nat) : TaskQueueState :=
  match dlookup taskId s.processingTasks with
  | none => s
  | some task =>
    let task' := { task with status := .completed, result := some result,
                             updatedAt := now }
    { s with
        processingTasks := derase taskId s.processingTasks,
        completedTasks := dinsert taskId task' s.completedTasks,
        taskHistory := dupdate taskId
          (fun h => h ++ [{ status := .completed, timestamp := now,
                            message := "Task completed successfully" }])
          s.taskHistory }

/-- TaskQueue.fail_task: the task is searched first in pending and then in
processing; from either partition it is moved to failed (error recorded,
history appended); when it is in neither, the call logs a warning and returns
with the store unchanged. -/
def tqFailTask (s : TaskQueueState) (taskId : String) (error : String)
    (now : Nat) : TaskQueueState :=
  match dlookup taskId s.pendingTasks with
  | some task =>
    let task' := { task with status := .failed, error := some error,
                             updatedAt := now }
    { s with
        pendingTasks := derase taskId s.pendingTasks,
        failedTasks := dinsert taskId task' s.failedTasks,
        taskHistory := dupdate taskId
          (fun h => h ++ [{ status := .failed, timestamp := now,
                            message := "Task failed: " ++ error }])
          s.taskHistory }
  | none =>
    match dlookup taskId s.processingTasks with
    | some task =>
      let task' := { task with status := .failed, error := some error,
                               updatedAt := now }
      { s with
          processingTasks := derase taskId s.processingTasks,
          failedTasks := dinsert taskId task' s.failedTasks,
          taskHistory := dupdate taskId
            (fun h => h ++ [{ status := .failed, timestamp := now,
                              message := "Task failed: " ++ error }])
            s.taskHistory }
    | none => s

/-- TaskQueue.retry_task: only a failed task is moved back to pending (error
and assignment cleared, history appended) and True is returned; otherwise the
store is unchanged and False is returned. -/
def tqRetryTask (s : TaskQueueState) (taskId : String) (now : Nat) :
    TaskQueueState × Bool :=
  match dlookup taskId s.failedTasks with
  | none => (s, false)
  | some task =>
    let task' := { task with status := .pending, error := none,
                             assignedTo := none, updatedAt := now }
    ({ s with
        failedTasks := derase taskId s.failedTasks,
        pendingTasks := dinsert taskId task' s.pendingTasks,
        taskHistory := dupdate taskId
          (fun h => h ++ [{ status := .pending, timestamp := now,
                            message := "Task retried" }])
          s.taskHistory },
     true)

/-! ## Agent registry (src/coordinator/agent_manager.py, class AgentManager) -/

/-- Lifecycle state of an agent, the constants of class AgentState. -/
inductive AgentState where
  | starting
  | running
  | busy
  | idle
  | error
  | stopping
  | stopped
  deriving DecidableEq, Repr

/-- Agent record created by AgentManager.start_agent. -/
structure Agent where
  id : String
  type : String
  state : AgentState
  startedAt : Nat
  lastHeartbeat : Nat
  currentTasks : List String
  deriving DecidableEq, Repr

/-- Payload of an event dict handed to MessageBroker.publish_event; only the
fields some publish site actually writes appear, each optional. -/
structure EventData where
  agentId : Option String := none
  agentType : Option String := none
  taskId : Option String := none
  error : Option String := none
  result : Option String := none
  oldState : Option AgentState := none
  newState : Option AgentState := none
  timestamp : Nat := 0
  deriving DecidableEq, Repr

/-- Observable call made on the MessageBroker: either publish_task (a task
envelope onto a capability work queue) or publish_event (an event onto the
topic exchange). -/
inductive BrokerCall where
  | publishTask (agentType : String) (taskId : String)
  | publishEvent (eventType : String) (data : EventData)
  deriving DecidableEq, Repr

/-- True exactly for work-queue publications. -/
def BrokerCall.isPublishTask : BrokerCall → Bool
  | .publishTask _ _ => true
  | .publishEvent _ _ => false

/-- Event type of a broker call; publish_task calls carry no event type. -/
def BrokerCall.eventType : BrokerCall → Option String
  | .publishTask _ _ => none
  | .publishEvent ty _ => some ty

/-- State of AgentManager: the per-capability agent pools, the agent_tasks
map (Python sets modelled as duplicate-free lists), and the last health-check
time. -/
structure AgentManagerState where
  agents : List (String × List (String × Agent))
  agentTasks : List (String × List String)
  lastHealthCheck : Nat
  deriving DecidableEq, Repr

/-- Pools created by AgentManager.__init__: the five fixed capability types,
each initially empty. -/
def initialPools : List (String × List (String × Agent)) :=
  [("scraper", []), ("processor", []), ("knowledge", []), ("learning", []), ("ui", [])]

/-- Initial AgentManager state (lastHealthCheck is datetime.now() at
construction). -/
def AgentManagerState.init (now : Nat) : AgentManagerState :=
  { agents := initialPools, agentTasks := [], lastHealthCheck := now }

/-- Linear scan over every pool for an agent id, as the for-loops the Python
methods use to locate an agent; returns the pool key and the agent of the
first binding found. -/
def findAgent (pools : List (String × List (String × Agent))) (agentId : String) :
    Option (String × Agent) :=
  match pools with
  | [] => none
  | (ty, pool) :: rest =>
    match dlookup agentId pool with
    | some a => some (ty, a)
    | none => findAgent rest agentId

/-- In-place mutation of the agent object found by the scan: the first pool
containing the id has its first binding for the id updated, everything else
is untouched. -/
def updateAgentIn (pools : List (String × List (String × Agent))) (agentId : String)
    (f : Agent → Agent) : List (String × List (String × Agent)) :=
  match pools with
  | [] => []
  | (ty, pool) :: rest =>
    if dmem agentId pool then (ty, dupdate agentId f pool) :: rest
    else (ty, pool) :: updateAgentIn rest agentId f

/-- AgentManager._update_agent_state: set the agent state and publish an
agent.state_changed event (a no-op when the agent does not exist). -/
def updateAgentState (s : AgentManagerState) (agentId : String) (st : AgentState)
    (now : Nat) : AgentManagerState × List BrokerCall :=
  match findAgent s.agents agentId with
  | none => (s, [])
  | some (ty, a) =>
    ({ s with agents := updateAgentIn s.agents agentId (fun ag => { ag with state := st }) },
     [.publishEvent "agent.state_changed"
        { agentId := some agentId, agentType := some ty,
          oldState := some a.state, newState := some st, timestamp := now }])

/-- AgentManager.start_agent.  The Python code draws the new agent id from a
UUID (coordinator/utils.generate_id); the model receives it as agentId.  The
agent is inserted STARTING with no tasks, an agent.started event is published
and the state is immediately set to IDLE (the per-agent auto-heartbeat
background task is detached concurrency and is not part of this atomic step). -/
def startAgent (s : AgentManagerState) (agentType agentId : String) (now : Nat) :
    AgentManagerState × String × List BrokerCall :=
  let agent : Agent :=
    { id := agentId, type := agentType, state := .starting,
      startedAt := now, lastHeartbeat := now, currentTasks := [] }
  let s1 : AgentManagerState :=
    { s with
        agents := dupdate agentType (fun pool => dinsert agentId agent pool) s.agents,
        agentTasks := dinsert agentId [] s.agentTasks }
  let ev1 := BrokerCall.publishEvent "agent.started"
    { agentId := some agentId, agentType := some agentType, timestamp := now }
  let (s2, evs2) := updateAgentState s1 agentId .idle now
  (s2, agentId, ev1 :: evs2)

/-- Addition to the agent_tasks set map in AgentManager.assign_task: create
the set when missing, then set-add the task id. -/
def agentTasksAdd (m : List (String × List String)) (agentId taskId : String) :
    List (String × List String) :=
  match dlookup agentId m with
  | none => dinsert agentId [taskId] m
  | some ts => dinsert agentId (if taskId ∈ ts then ts else ts ++ [taskId]) m

/-- Removal from the agent_tasks set map in complete_task / fail_task: remove
only when both the agent entry and the task id are present. -/
def agentTasksRemove (m : List (String × List String)) (agentId taskId : String) :
    List (String × List String) :=
  match dlookup agentId m with
  | none => m
  | some ts => if taskId ∈ ts then dinsert agentId (ts.erase taskId) m else m

/-- AgentManager.assign_task.  Rejected (False, no change, no publication)
when the agent is not found or its state is not IDLE or RUNNING; otherwise the
task id is appended to current_tasks, added to agent_tasks, the state is set
to BUSY (publishing agent.state_changed) and a task.assigned event is
published; returns True.  The spawned _process_task_real coroutine is detached
concurrency and not part of this atomic step. -/
def assignTask (s : AgentManagerState) (agentId taskId : String) (now : Nat) :
    Bool × AgentManagerState × List BrokerCall :=
  match findAgent s.agents agentId with
  | none => (false, s, [])
  | some (_, agent) =>
    if agent.state = .idle ∨ agent.state = .running then
      let s1 : AgentManagerState :=
        { s with
            agents := updateAgentIn s.agents agentId
              (fun a => { a with currentTasks := a.currentTasks ++ [taskId] }),
            agentTasks := agentTasksAdd s.agentTasks agentId taskId }
      let (s2, evs2) := updateAgentState s1 agentId .busy now
      (true, s2,
       evs2 ++ [.publishEvent "task.assigned"
         { taskId := some taskId, agentId := some agentId, timestamp := now }])
    else (false, s, [])

/-- AgentManager.complete_task.  Rejected (False, no change, no publication)
when the agent is not found or the task id is not in its current_tasks;
otherwise the task id is removed from current_tasks and agent_tasks, the agent
becomes IDLE when its task list is now empty, and a task.completed event is
published; returns True. -/
def amCompleteTask (s : AgentManagerState) (agentId taskId : String)
    (result : String) (now : Nat) : Bool × AgentManagerState × List BrokerCall :=
  match findAgent s.agents agentId with
  | none => (false, s, [])
  | some (_, agent) =>
    if taskId ∈ agent.currentTasks then
      let s1 : AgentManagerState :=
        { s with
            agents := updateAgentIn s.agents agentId
              (fun a => { a with currentTasks := a.currentTasks.erase taskId }),
            agentTasks := agentTasksRemove s.agentTasks agentId taskId }
      let (s2, evs2) :=
        if agent.currentTasks.erase taskId = [] then
          updateAgentState s1 agentId .idle now
        else (s1, [])
      (true, s2,
       evs2 ++ [.publishEvent "task.completed"
         { taskId := some taskId, agentId := some agentId,
           result := some result, timestamp := now }])
    else (false, s, [])

/-- AgentManager.fail_task, structurally identical to complete_task but
publishing task.failed with the error. -/
def amFailTask (s : AgentManagerState) (agentId taskId : String)
    (error : String) (now : Nat) : Bool × AgentManagerState × List BrokerCall :=
  match findAgent s.agents agentId with
  | none => (false, s, [])
  | some (_, agent) =>
    if taskId ∈ agent.currentTasks then
      let s1 : AgentManagerState :=
        { s with
            agents := updateAgentIn s.agents agentId
              (fun a => { a with currentTasks := a.currentTasks.erase taskId }),
            agentTasks := agentTasksRemove s.agentTasks agentId taskId }
      let (s2, evs2) :=
        if agent.currentTasks.erase taskId = [] then
          updateAgentState s1 agentId .idle now
        else (s1, [])
      (true, s2,
       evs2 ++ [.publishEvent "task.failed"
         { taskId := some taskId, agentId := some agentId,
           error := some error, timestamp := now }])
    else (false, s, [])

/-- AgentManager.stop_agent.  Returns False without change when the agent is
not found; otherwise transitions STOPPING (event), publishes agent.stopping,
performs no wait on current tasks (the code only logs), transitions STOPPED
(event), deletes the agent from its pool and from agent_tasks, publishes
agent.stopped, and returns True. -/
def stopAgent (s : AgentManagerState) (agentId : String) (now : Nat) :
    Bool × AgentManagerState × List BrokerCall :=
  match findAgent s.agents agentId with
  | none => (false, s, [])
  | some (ty, _) =>
    let (s1, evs1) := updateAgentState s agentId .stopping now
    let ev2 := BrokerCall.publishEvent "agent.stopping"
      { agentId := some agentId, agentType := some ty, timestamp := now }
    let (s2, evs3) := updateAgentState s1 agentId .stopped now
    let s3 : AgentManagerState :=
      { s2 with
          agents := dupdate ty (fun pool => derase agentId pool) s2.agents,
          agentTasks := derase agentId s2.agentTasks }
    let ev4 := BrokerCall.publishEvent "agent.stopped"
      { agentId := some agentId, agentType := some ty, timestamp := now }
    (true, s3, evs1 ++ [ev2] ++ evs3 ++ [ev4])

/-- AgentManager.update_heartbeat: stamp last_heartbeat; an agent found in
ERROR is restored to BUSY or IDLE according to whether it still holds tasks;
returns whether the agent was found. -/
def updateHeartbeat (s : AgentManagerState) (agentId : String) (now : Nat) :
    Bool × AgentManagerState × List BrokerCall :=
  match findAgent s.agents agentId with
  | none => (false, s, [])
  | some (_, agent) =>
    let s1 : AgentManagerState :=
      { s with agents :=
          updateAgentIn s.agents agentId (fun a => { a with lastHeartbeat := now }) }
    if agent.state = .error then
      if agent.currentTasks ≠ [] then
        let (s2, evs) := updateAgentState s1 agentId .busy now
        (true, s2, evs)
      else
        let (s2, evs) := updateAgentState s1 agentId .idle now
        (true, s2, evs)
    else (true, s1, [])

/-- AgentManager._handle_agent_failure: publish a task.failed event with the
fixed error "Agent failure" for every task currently held by the agent, then
clear current_tasks and reset the agent_tasks entry to the empty set; a no-op
when the agent is missing or holds no tasks. -/
def handleAgentFailure (s : AgentManagerState) (agentId : String) (now : Nat) :
    AgentManagerState × List BrokerCall :=
  match findAgent s.agents agentId with
  | none => (s, [])
  | some (_, agent) =>
    if agent.currentTasks = [] then (s, [])
    else
      let evs := agent.currentTasks.map (fun t =>
        BrokerCall.publishEvent "task.failed"
          { taskId := some t, agentId := some agentId,
            error := some "Agent failure", timestamp := now })
      ({ s with
          agents := updateAgentIn s.agents agentId
            (fun a => { a with currentTasks := [] }),
          agentTasks :=
            if dmem agentId s.agentTasks then dinsert agentId [] s.agentTasks
            else s.agentTasks },
       evs)

/-- Body of the health check for one agent (the inner loop of
AgentManager.check_agent_health): agents in STARTING, STOPPING or STOPPED are
skipped; an agent whose heartbeat is more than 60 seconds old is set to ERROR
(agent.state_changed event), an agent.error event is published and its tasks
are handed to _handle_agent_failure. -/
def sweepAgent (s : AgentManagerState) (ty agentId : String) (now : Nat) :
    AgentManagerState × List BrokerCall :=
  match findAgent s.agents agentId with
  | none => (s, [])
  | some (_, agent) =>
    if agent.state = .starting ∨ agent.state = .stopping ∨ agent.state = .stopped then
      (s, [])
    else if now - agent.lastHeartbeat > 60 then
      let (s1, evs1) := updateAgentState s agentId .error now
      let ev2 := BrokerCall.publishEvent "agent.error"
        { agentId := some agentId, agentType := some ty,
          error := some "Agent heartbeat timeout", timestamp := now }
      let (s2, evs3) := handleAgentFailure s1 agentId now
      (s2, evs1 ++ [ev2] ++ evs3)
    else (s, [])

/-- Sweep of one pool over a snapshot of its agent ids (the Python loop
iterates list(pool.items())). -/
def sweepPool (s : AgentManagerState) (ty : String) (ids : List String) (now : Nat) :
    AgentManagerState × List BrokerCall :=
  match ids with
  | [] => (s, [])
  | agentId :: rest =>
    let (s1, evs1) := sweepAgent s ty agentId now
    let (s2, evs2) := sweepPool s1 ty rest now
    (s2, evs1 ++ evs2)

/-- Sweep of every pool in order. -/
def sweepPools (s : AgentManagerState)
    (snapshot : List (String × List String)) (now : Nat) :
    AgentManagerState × List BrokerCall :=
  match snapshot with
  | [] => (s, [])
  | (ty, ids) :: rest =>
    let (s1, evs1) := sweepPool s ty ids now
    let (s2, evs2) := sweepPools s1 rest now
    (s2, evs1 ++ evs2)

/-- Rate-limit interval of the health check (self.health_check_interval,
300 seconds). -/
def healthCheckInterval : Nat := 300

/-- AgentManager.check_agent_health: a no-op unless at least
health_check_interval seconds have passed since the last check; otherwise the
check time is updated and every agent of every pool is swept. -/
def checkAgentHealth (s : AgentManagerState) (now : Nat) :
    AgentManagerState × List BrokerCall :=
  if now - s.lastHealthCheck < healthCheckInterval then (s, [])
  else
    sweepPools { s with lastHealthCheck := now }
      (s.agents.map (fun p => (p.1, dkeys p.2))) now

/-- AgentManager.get_available_agents: the ids of the IDLE agents of the
pool of the given type, in pool order; an unknown type yields the empty
list. -/
def getAvailableAgents (s : AgentManagerState) (agentType : String) : List String :=
  match dlookup agentType s.agents with
  | none => []
  | some pool => (pool.filter (fun p => p.2.state = AgentState.idle)).map Prod.fst

/-! ## Scheduling pass (TaskQueue.process_pending_tasks) and the coordinator
event handler (Coordinator._handle_task_event in src/coordinator/main.py) -/

/-- One step of building tasks_by_agent in process_pending_tasks: append the
task to the list of its agent type, creating the group on first sight (dict
insertion order gives first-appearance order of the types). -/
def groupInsert (m : List (String × List Task)) (ty : String) (t : Task) :
    List (String × List Task) :=
  match dlookup ty m with
  | none => dinsert ty [t] m
  | some ts => dinsert ty (ts ++ [t]) m

/-- Grouping of the pending tasks by their agent_type field, in pending
iteration order. -/
def groupPending (pending : List (String × Task)) : List (String × List Task) :=
  pending.foldl (fun m p => groupInsert m p.2.agentType p.2) []

/-- Inner loop of process_pending_tasks for one group: walk the group tasks
in order, breaking when no available agent remains; for each pairing pop the
front agent, move the task to processing via TaskQueue._assign_task, then
notify AgentManager.assign_task. -/
def assignLoop (tq : TaskQueueState) (am : AgentManagerState)
    (tasks : List Task) (avail : List String) (now : Nat) :
    TaskQueueState × AgentManagerState × List BrokerCall :=
  match tasks, avail with
  | [], _ => (tq, am, [])
  | _ :: _, [] => (tq, am, [])
  | t :: ts, agentId :: rest =>
    let tq1 := tqAssignTask tq t.id agentId now
    let (_, am1, evs1) := assignTask am agentId t.id now
    let (tq2, am2, evs2) := assignLoop tq1 am1 ts rest now
    (tq2, am2, evs1 ++ evs2)

/-- Outer loop of process_pending_tasks over the groups: for each group fetch
the currently available agents of that type, then run the inner loop. -/
def processGroups (tq : TaskQueueState) (am : AgentManagerState)
    (groups : List (String × List Task)) (now : Nat) :
    TaskQueueState × AgentManagerState × List BrokerCall :=
  match groups with
  | [] => (tq, am, [])
  | (ty, ts) :: rest =>
    let avail := getAvailableAgents am ty
    let (tq1, am1, evs1) := assignLoop tq am ts avail now
    let (tq2, am2, evs2) := processGroups tq1 am1 rest now
    (tq2, am2, evs1 ++ evs2)

/-- TaskQueue.process_pending_tasks: group the pending tasks by agent type
and run the assignment loops. -/
def processPendingTasks (tq : TaskQueueState) (am : AgentManagerState) (now : Nat) :
    TaskQueueState × AgentManagerState × List BrokerCall :=
  processGroups tq am (groupPending tq.pendingTasks) now

/-- Coordinator._handle_task_event applied to one broker call as delivered by
the task.completed / task.failed event subscription: a task.completed event
completes the task in the store with the event result (None when absent,
modelled as the empty string), a task.failed event fails it with the event
error defaulting to "Unknown error"; every other call leaves the store
unchanged, as does an event without a task id. -/
def handleTaskEvent (tq : TaskQueueState) (c : BrokerCall) (now : Nat) :
    TaskQueueState :=
  match c with
  | .publishTask _ _ => tq
  | .publishEvent ty d =>
    match d.taskId with
    | none => tq
    | some taskId =>
      if ty = "task.completed" then
        tqCompleteTask tq taskId (d.result.getD "") now
      else if ty = "task.failed" then
        tqFailTask tq taskId (d.error.getD "Unknown error") now
      else tq

/-- Folding of the coordinator event handler over a list of broker calls:
the cumulative effect on the task store of the events a registry operation
published. -/
def applyTaskEvents (tq : TaskQueueState) (cs : List BrokerCall) (now : Nat) :
    TaskQueueState :=
  cs.foldl (fun acc c => handleTaskEvent acc c now) tq

/-! ## Reachable states and invariants -/

/-- Presence of a task id anywhere in the task store. -/
def tqHasTask (s : TaskQueueState) (taskId : String) : Bool :=
  dmem taskId s.pendingTasks || dmem taskId s.processingTasks ||
  dmem taskId s.completedTasks || dmem taskId s.failedTasks

/-- Number of partitions of the task store containing the task id. -/
def partitionCount (s : TaskQueueState) (taskId : String) : Nat :=
  (if dmem taskId s.pendingTasks then 1 else 0) +
  (if dmem taskId s.processingTasks then 1 else 0) +
  (if dmem taskId s.completedTasks then 1 else 0) +
  (if dmem taskId s.failedTasks then 1 else 0)

/-- Mutating operations of the task store.  The add step carries the
freshness of the generated id: build_task_id draws it from uuid4, so it never
collides with an id already in the store.  The pass step is
process_pending_tasks, whose task-store side runs _assign_task repeatedly. -/
inductive TQStep : TaskQueueState → TaskQueueState → Prop where
  | add (s : TaskQueueState) (taskId taskType taskData : String) (now : Nat)
      (fresh : tqHasTask s taskId = false) :
      TQStep s (addTask s taskId taskType taskData now).1
  | assign (s : TaskQueueState) (taskId agentId : String) (now : Nat) :
      TQStep s (tqAssignTask s taskId agentId now)
  | complete (s : TaskQueueState) (taskId result : String) (now : Nat) :
      TQStep s (tqCompleteTask s taskId result now)
  | fail (s : TaskQueueState) (taskId error : String) (now : Nat) :
      TQStep s (tqFailTask s taskId error now)
  | retry (s : TaskQueueState) (taskId : String) (now : Nat) :
      TQStep s (tqRetryTask s taskId now).1
  | pass (s : TaskQueueState) (am : AgentManagerState) (now : Nat) :
      TQStep s (processPendingTasks s am now).1

/-- Task-store states reachable from the empty store. -/
inductive TQReachable : TaskQueueState → Prop where
  | init : TQReachable TaskQueueState.init
  | step {s s' : TaskQueueState} : TQReachable s → TQStep s s' → TQReachable s'

/-- Concatenated id lists of every agent pool. -/
def allAgentIds (pools : List (String × List (String × Agent))) : List String :=
  (pools.map (fun p => dkeys p.2)).flatten

/-- Operations of the agent registry.  The start step carries pool existence
(start_agents only starts the configured capability types; an unknown type
would raise KeyError) and freshness of the generated uuid agent id.  The pass
step is the agent-registry side of process_pending_tasks. -/
inductive AMStep : AgentManagerState → AgentManagerState → Prop where
  | start (s : AgentManagerState) (agentType agentId : String) (now : Nat)
      (pool : dmem agentType s.agents = true)
      (fresh : findAgent s.agents agentId = none) :
      AMStep s (startAgent s agentType agentId now).1
  | stop (s : AgentManagerState) (agentId : String) (now : Nat) :
      AMStep s (stopAgent s agentId now).2.1
  | assign (s : AgentManagerState) (agentId taskId : String) (now : Nat) :
      AMStep s (assignTask s agentId taskId now).2.1
  | complete (s : AgentManagerState) (agentId taskId result : String) (now : Nat) :
      AMStep s (amCompleteTask s agentId taskId result now).2.1
  | fail (s : AgentManagerState) (agentId taskId error : String) (now : Nat) :
      AMStep s (amFailTask s agentId taskId error now).2.1
  | heartbeat (s : AgentManagerState) (agentId : String) (now : Nat) :
      AMStep s (updateHeartbeat s agentId now).2.1
  | health (s : AgentManagerState) (now : Nat) :
      AMStep s (checkAgentHealth s now).1
  | pass (tq : TaskQueueState) (s : AgentManagerState) (now : Nat) :
      AMStep s (processPendingTasks tq s now).2.1

/-- Registry states reachable from a fresh AgentManager. -/
inductive AMReachable : AgentManagerState → Prop where
  | init (now : Nat) : AMReachable (AgentManagerState.init now)
  | step {s s' : AgentManagerState} : AMReachable s → AMStep s s' → AMReachable s'

/-- The BUSY-iff-holding invariant for one agent record, with ERROR exempt. -/
def agentBusyOk (a : Agent) : Prop :=
  a.state ≠ .error → (a.state = .busy ↔ a.currentTasks ≠ [])

/-- An (id, agent) binding occurring in some pool of the registry. -/
def bindingIn (pools : List (String × List (String × Agent)))
    (agentId : String) (a : Agent) : Prop :=
  ∃ ty pool, (ty, pool) ∈ pools ∧ (agentId, a) ∈ pool

/-- The BUSY-iff-holding condition over every agent the registry scan can
return. -/
def busyOkAll (s : AgentManagerState) : Prop :=
  ∀ id ty a, findAgent s.agents id = some (ty, a) → agentBusyOk a

/-- Inductive invariant of the registry: distinct pool keys, globally unique
agent ids, and the BUSY-iff-holding condition. -/
def AMInv (s : AgentManagerState) : Prop :=
  (dkeys s.agents).Nodup ∧ (allAgentIds s.agents).Nodup ∧ busyOkAll s

/-- Task types with an explicit entry in the task-type to agent-type mapping
of TaskQueue._map_task_type_to_agent. -/
def knownTaskTypes : List String :=
  ["scrape_web", "scrape_pdf", "scrape_academic",
   "process_text", "process_image", "extract_concepts",
   "build_graph", "find_connections", "validate_knowledge",
   "recommend_content", "generate_quiz", "create_study_plan",
   "generate_visualization", "compose_dashboard"]

/-! ## Association-list lemmas -/

theorem dlookup_dinsert_self {α : Type} (k : String) (v : α) (l : List (String × α)) :
    dlookup k (dinsert k v l) = some v := by
  induction l with
  | nil => simp [dinsert, dlookup]
  | cons p rest ih =>
    obtain ⟨k', v'⟩ := p
    by_cases h : k' = k
    · simp [dinsert, dlookup, h]
    · simp [dinsert, dlookup, h, ih]

theorem dlookup_dinsert_ne {α : Type} (k k' : String) (v : α) (l : List (String × α))
    (h : k' ≠ k) : dlookup k (dinsert k' v l) = dlookup k l := by
  induction l with
  | nil => simp [dinsert, dlookup, h]
  | cons p rest ih =>
    obtain ⟨k'', v''⟩ := p
    by_cases h2 : k'' = k'
    · subst h2
      simp [dinsert, dlookup, h]
    · simp only [dinsert, if_neg h2, dlookup]
      by_cases h3 : k'' = k
      · simp [h3]
      · simp [h3, ih]

theorem dlookup_derase_self {α : Type} (k : String) (l : List (String × α)) :
    dlookup k (derase k l) = none := by
  induction l with
  | nil => simp [derase, dlookup]
  | cons p rest ih =>
    obtain ⟨k', v⟩ := p
    by_cases h : k' = k
    · simpa [derase, h] using ih
    · simpa [derase, dlookup, h] using ih

theorem dlookup_derase_ne {α : Type} (k k' : String) (l : List (String × α))
    (h : k' ≠ k) : dlookup k (derase k' l) = dlookup k l := by
  induction l with
  | nil => simp [derase]
  | cons p rest ih =>
    obtain ⟨k'', v⟩ := p
    by_cases h2 : k'' = k'
    · subst h2
      have h3 : k'' ≠ k := h
      simp [derase, dlookup, h3, ih]
    · by_cases h3 : k'' = k
      · simp [derase, dlookup, h2, h3, Ne.symm h]
      · simp [derase, dlookup, h2, h3, ih]

theorem dlookup_dupdate_self {α : Type} (k : String) (f : α → α) (l : List (String × α)) :
    dlookup k (dupdate k f l) = (dlookup k l).map f := by
  induction l with
  | nil => simp [dupdate, dlookup]
  | cons p rest ih =>
    obtain ⟨k', v⟩ := p
    by_cases h : k' = k
    · simp [dupdate, dlookup, h]
    · simp [dupdate, dlookup, h, ih]

theorem dlookup_dupdate_ne {α : Type} (k k' : String) (f : α → α) (l : List (String × α))
    (h : k' ≠ k) : dlookup k (dupdate k' f l) = dlookup k l := by
  induction l with
  | nil => simp [dupdate, dlookup]
  | cons p rest ih =>
    obtain ⟨k'', v⟩ := p
    by_cases h2 : k'' = k'
    · subst h2
      simp [dupdate, dlookup, Ne.symm h, h]
    · by_cases h3 : k'' = k
      · simp [dupdate, dlookup, h2, h3, Ne.symm h]
      · simp [dupdate, dlookup, h2, h3, ih]

theorem mem_of_dlookup {α : Type} {k : String} {v : α} {l : List (String × α)}
    (h : dlookup k l = some v) : (k, v) ∈ l := by
  induction l with
  | nil => simp [dlookup] at h
  | cons p rest ih =>
    obtain ⟨k', v'⟩ := p
    by_cases h2 : k' = k
    · subst h2
      simp [dlookup] at h
      simp [h]
    · simp [dlookup, h2] at h
      simp [ih h]

theorem dlookup_of_mem {α : Type} {k : String} {v : α} {l : List (String × α)}
    (hmem : (k, v) ∈ l) (hnd : (dkeys l).Nodup) : dlookup k l = some v := by
  induction l with
  | nil => simp at hmem
  | cons p rest ih =>
    obtain ⟨k', v'⟩ := p
    simp [dkeys] at hnd
    rcases List.mem_cons.mp hmem with h | h
    · obtain ⟨h1, h2⟩ := Prod.mk.injEq .. ▸ h
      subst h1
      simp_all [dlookup]
    · by_cases h2 : k' = k
      · subst h2
        exact absurd h (hnd.1 v)
      · simp [dlookup, h2]
        exact ih h hnd.2

theorem dlookup_eq_none_iff {α : Type} {k : String} {l : List (String × α)} :
    dlookup k l = none ↔ k ∉ dkeys l := by
  induction l with
  | nil => simp [dlookup, dkeys]
  | cons p rest ih =>
    obtain ⟨k', v'⟩ := p
    by_cases h : k' = k
    · simp [dlookup, dkeys, h]
    · simp [dlookup, dkeys, h, ih, Ne.symm h]

theorem dkeys_dupdate {α : Type} (k : String) (f : α → α) (l : List (String × α)) :
    dkeys (dupdate k f l) = dkeys l := by
  induction l with
  | nil => simp [dupdate]
  | cons p rest ih =>
    obtain ⟨k', v'⟩ := p
    by_cases h : k' = k
    · simp [dupdate, dkeys, h]
    · simp only [dupdate, if_neg h]
      simp [dkeys] at ih ⊢
      exact ih

theorem dupdate_dupdate {α : Type} (k : String) (f g : α → α) (l : List (String × α)) :
    dupdate k g (dupdate k f l) = dupdate k (fun x => g (f x)) l := by
  induction l with
  | nil => simp [dupdate]
  | cons p rest ih =>
    obtain ⟨k', v'⟩ := p
    by_cases h : k' = k
    · simp [dupdate, h]
    · simp [dupdate, h, ih]

/-! ## C1: terminal transitions of the task store -/

/-- Concrete pending task used to exercise fail_task on a pending task. -/
def c1Task : Task :=
  { id := "tsk-1", type := "bogus", data := "d", status := .pending,
    createdAt := 0, updatedAt := 0, agentType := "bogus",
    assignedTo := none, result := none, error := none }

/-- Store holding c1Task in the pending partition only. -/
def c1Store : TaskQueueState :=
  { pendingTasks := [("tsk-1", c1Task)], processingTasks := [],
    completedTasks := [], failedTasks := [],
    taskHistory := [("tsk-1", [{ status := .pending, timestamp := 0,
                                 message := "Task created" }])] }

/-- C1, counterexample: fail_task on a task that is pending (hence not in the
processing partition) is not a no-op — it moves the task from pending to
failed, so a task can transition from pending directly to failed. -/
theorem c1_fail_pending_not_noop :
    dlookup "tsk-1" c1Store.processingTasks = none ∧
    tqFailTask c1Store "tsk-1" "boom" 1 ≠ c1Store ∧
    dmem "tsk-1" (tqFailTask c1Store "tsk-1" "boom" 1).failedTasks = true ∧
    dmem "tsk-1" (tqFailTask c1Store "tsk-1" "boom" 1).pendingTasks = false := by
  refine ⟨rfl, ?_, rfl, rfl⟩
  intro h
  have := congrArg TaskQueueState.pendingTasks h
  simp [tqFailTask, c1Store, c1Task, dlookup, derase, dinsert, dupdate] at this

/-- C1 (amended): complete_task is a no-op unless the task is in processing,
and from processing it moves the task to completed and appends history;
fail_task accepts a task found in pending or in processing, moving it to
failed and appending history, and is a no-op only when the task is in neither
— so pending → failed is a reachable direct transition, while pending →
completed is not. -/
theorem c1_terminal_transitions (s : TaskQueueState) (taskId res err : String)
    (now : Nat) :
    (dlookup taskId s.processingTasks = none → tqCompleteTask s taskId res now = s) ∧
    (dlookup taskId s.pendingTasks = none → dlookup taskId s.processingTasks = none →
        tqFailTask s taskId err now = s) ∧
    (∀ task, dlookup taskId s.processingTasks = some task →
        dlookup taskId (tqCompleteTask s taskId res now).completedTasks =
          some { task with status := .completed, result := some res, updatedAt := now } ∧
        dlookup taskId (tqCompleteTask s taskId res now).processingTasks = none ∧
        dlookup taskId (tqCompleteTask s taskId res now).taskHistory =
          (dlookup taskId s.taskHistory).map
            (fun h => h ++ [{ status := .completed, timestamp := now,
                              message := "Task completed successfully" }])) ∧
    (∀ task, dlookup taskId s.pendingTasks = some task →
        dlookup taskId (tqFailTask s taskId err now).failedTasks =
          some { task with status := .failed, error := some err, updatedAt := now } ∧
        dlookup taskId (tqFailTask s taskId err now).pendingTasks = none ∧
        dlookup taskId (tqFailTask s taskId err now).taskHistory =
          (dlookup taskId s.taskHistory).map
            (fun h => h ++ [{ status := .failed, timestamp := now,
                              message := "Task failed: " ++ err }])) ∧
    (∀ task, dlookup taskId s.pendingTasks = none →
        dlookup taskId s.processingTasks = some task →
        dlookup taskId (tqFailTask s taskId err now).failedTasks =
          some { task with status := .failed, error := some err, updatedAt := now } ∧
        dlookup taskId (tqFailTask s taskId err now).processingTasks = none) := by
  refine ⟨?_, ?_, ?_, ?_, ?_⟩
  · intro h
    simp [tqCompleteTask, h]
  · intro h1 h2
    simp [tqFailTask, h1, h2]
  · intro task h
    simp [tqCompleteTask, h, dlookup_dinsert_self, dlookup_derase_self,
      dlookup_dupdate_self]
  · intro task h
    simp [tqFailTask, h, dlookup_dinsert_self, dlookup_derase_self,
      dlookup_dupdate_self]
  · intro task h1 h2
    simp [tqFailTask, h1, h2, dlookup_dinsert_self, dlookup_derase_self]

/-- C1, witness: the amended theorem applied to the concrete store: failing
the pending task tsk-1 lands it in the failed partition. -/
theorem c1_terminal_transitions_witness :
    dlookup "tsk-1" (tqFailTask c1Store "tsk-1" "boom" 1).failedTasks =
      some { c1Task with status := .failed, error := some "boom", updatedAt := 1 } :=
  ((c1_terminal_transitions c1Store "tsk-1" "r" "boom" 1).2.2.2.1 c1Task rfl).1

/-! ## C4: submission of an unknown task type -/

/-- C4, counterexample: submitting a task of unknown type bogus_type is not
rejected — the task enters the pending partition of the store, with the
agent_type defaulted to the task type itself. -/
theorem c4_unknown_type_enters_store :
    dmem "tsk-1" ((addTask TaskQueueState.init "tsk-1" "bogus_type" "d" 0).1).pendingTasks
      = true ∧
    dlookup "tsk-1" ((addTask TaskQueueState.init "tsk-1" "bogus_type" "d" 0).1).pendingTasks
      = some { id := "tsk-1", type := "bogus_type", data := "d", status := .pending,
               createdAt := 0, updatedAt := 0, agentType := "bogus_type",
               assignedTo := none, result := none, error := none } := by
  constructor <;> rfl

/-- C4 (amended): add_task performs no validation — a task of a type outside
the static mapping is accepted like any other, entering the pending partition
with agent_type defaulted to the task type itself; no rejection path exists. -/
theorem c4_add_task_never_rejects (s : TaskQueueState)
    (taskId taskType taskData : String) (now : Nat)
    (h : taskType ∉ knownTaskTypes) :
    mapTaskTypeToAgent taskType = taskType ∧
    dlookup taskId ((addTask s taskId taskType taskData now).1).pendingTasks =
      some { id := taskId, type := taskType, data := taskData, status := .pending,
             createdAt := now, updatedAt := now, agentType := taskType,
             assignedTo := none, result := none, error := none } := by
  have hm : mapTaskTypeToAgent taskType = taskType := by
    simp [knownTaskTypes] at h
    unfold mapTaskTypeToAgent
    split <;> simp_all
  refine ⟨hm, ?_⟩
  simp [addTask, dlookup_dinsert_self, hm]

/-- C4, witness: the amended theorem at the unknown type bogus_type. -/
theorem c4_add_task_never_rejects_witness :
    dlookup "tsk-1" ((addTask TaskQueueState.init "tsk-1" "bogus_type" "d" 0).1).pendingTasks
      = some { id := "tsk-1", type := "bogus_type", data := "d", status := .pending,
               createdAt := 0, updatedAt := 0, agentType := "bogus_type",
               assignedTo := none, result := none, error := none } :=
  (c4_add_task_never_rejects TaskQueueState.init "tsk-1" "bogus_type" "d" 0
    (by decide)).2

/-! ## Registry pool lemmas -/

theorem dmem_dupdate {α : Type} (k k' : String) (f : α → α) (l : List (String × α)) :
    dmem k (dupdate k' f l) = dmem k l := by
  by_cases h : k' = k
  · subst h
    simp [dmem, dlookup_dupdate_self]
  · simp [dmem, dlookup_dupdate_ne _ _ _ _ h]

theorem findAgent_updateAgentIn_self (pools : List (String × List (String × Agent)))
    (k : String) (f : Agent → Agent) :
    findAgent (updateAgentIn pools k f) k =
      (findAgent pools k).map (fun p => (p.1, f p.2)) := by
  induction pools with
  | nil => simp [updateAgentIn, findAgent]
  | cons p rest ih =>
    obtain ⟨ty, pool⟩ := p
    by_cases h : dmem k pool
    · have hsome : ∃ a, dlookup k pool = some a := by
        simpa [dmem, Option.isSome_iff_exists] using h
      obtain ⟨a, ha⟩ := hsome
      simp [updateAgentIn, h, findAgent, dlookup_dupdate_self, ha]
    · have hnone : dlookup k pool = none := by
        simpa [dmem, Option.isSome_iff_exists, Option.eq_none_iff_forall_not_mem] using h
      simp [updateAgentIn, h, findAgent, hnone, ih]

theorem findAgent_updateAgentIn_ne (pools : List (String × List (String × Agent)))
    (k j : String) (f : Agent → Agent) (hne : j ≠ k) :
    findAgent (updateAgentIn pools k f) j = findAgent pools j := by
  induction pools with
  | nil => simp [updateAgentIn]
  | cons p rest ih =>
    obtain ⟨ty, pool⟩ := p
    by_cases h : dmem k pool
    · simp [updateAgentIn, h, findAgent, dlookup_dupdate_ne _ _ _ _ (Ne.symm hne)]
    · simp [updateAgentIn, h, findAgent, ih]

theorem updateAgentIn_comp (pools : List (String × List (String × Agent)))
    (k : String) (f g : Agent → Agent) :
    updateAgentIn (updateAgentIn pools k f) k g =
      updateAgentIn pools k (fun a => g (f a)) := by
  induction pools with
  | nil => simp [updateAgentIn]
  | cons p rest ih =>
    obtain ⟨ty, pool⟩ := p
    by_cases h : dmem k pool
    · simp [updateAgentIn, h, dmem_dupdate, dupdate_dupdate]
    · simp [updateAgentIn, h, ih]

/-! ## C2: the assignment guard of the agent registry -/

/-- Concrete BUSY agent holding one task. -/
def busyAgent1 : Agent :=
  { id := "a1", type := "scraper", state := .busy, startedAt := 0,
    lastHeartbeat := 0, currentTasks := ["t0"] }

/-- Registry whose only agent is busyAgent1. -/
def busyState1 : AgentManagerState :=
  { agents := [("scraper", [("a1", busyAgent1)]), ("processor", []),
               ("knowledge", []), ("learning", []), ("ui", [])],
    agentTasks := [("a1", ["t0"])], lastHealthCheck := 0 }

/-- Concrete IDLE agent. -/
def idleAgent1 : Agent :=
  { id := "a1", type := "scraper", state := .idle, startedAt := 0,
    lastHeartbeat := 0, currentTasks := [] }

/-- Registry whose only agent is idleAgent1. -/
def idleState1 : AgentManagerState :=
  { agents := [("scraper", [("a1", idleAgent1)]), ("processor", []),
               ("knowledge", []), ("learning", []), ("ui", [])],
    agentTasks := [("a1", [])], lastHealthCheck := 0 }

/-- C2, counterexample: an agent that is already BUSY is rejected by
assign_task with no state change — the claim that assignment succeeds from
the BUSY state (multiple concurrent tasks per agent) fails on the code, whose
guard admits only IDLE and RUNNING. -/
theorem c2_busy_assignment_rejected :
    findAgent busyState1.agents "a1" = some ("scraper", busyAgent1) ∧
    busyAgent1.state = .busy ∧
    assignTask busyState1 "a1" "t1" 5 = (false, busyState1, []) := by
  refine ⟨rfl, rfl, rfl⟩

/-- C2 (amended): assign_task succeeds exactly when the agent exists and its
state is IDLE or RUNNING; a BUSY agent (and every other state) is rejected
with a failure result, no state change and no publication; on success the
task id is appended to the agent task list and the agent state becomes
BUSY. -/
theorem c2_assign_guard (s : AgentManagerState) (agentId taskId : String) (now : Nat) :
    (findAgent s.agents agentId = none →
        assignTask s agentId taskId now = (false, s, [])) ∧
    (∀ ty ag, findAgent s.agents agentId = some (ty, ag) →
        ag.state ≠ .idle → ag.state ≠ .running →
        assignTask s agentId taskId now = (false, s, [])) ∧
    (∀ ty ag, findAgent s.agents agentId = some (ty, ag) →
        (ag.state = .idle ∨ ag.state = .running) →
        (assignTask s agentId taskId now).1 = true ∧
        findAgent (assignTask s agentId taskId now).2.1.agents agentId =
          some (ty, { ag with currentTasks := ag.currentTasks ++ [taskId],
                              state := .busy })) := by
  refine ⟨?_, ?_, ?_⟩
  · intro h
    simp [assignTask, h]
  · intro ty ag h h1 h2
    simp [assignTask, h, h1, h2]
  · intro ty ag h hst
    simp only [assignTask, h]
    rw [if_pos hst]
    simp only [updateAgentState, findAgent_updateAgentIn_self, h, Option.map_some]
    simp [updateAgentIn_comp, findAgent_updateAgentIn_self, h]

/-- C2, witness: assigning to the concrete IDLE agent succeeds and leaves it
BUSY holding the task. -/
theorem c2_assign_guard_witness :
    (assignTask idleState1 "a1" "t1" 5).1 = true ∧
    findAgent (assignTask idleState1 "a1" "t1" 5).2.1.agents "a1" =
      some ("scraper", { idleAgent1 with currentTasks := ["t1"], state := .busy }) :=
  (c2_assign_guard idleState1 "a1" "t1" 5).2.2 "scraper" idleAgent1 rfl (Or.inl rfl)

/-! ## C3: what a successful assignment publishes -/

/-- C3, counterexample: a successful assignment whose broker trace contains
no work-queue publication at all — publish_task is never invoked; only the
agent.state_changed and task.assigned events go out on the event exchange. -/
theorem c3_assign_no_work_queue_publish :
    (assignTask idleState1 "a1" "t1" 5).1 = true ∧
    (assignTask idleState1 "a1" "t1" 5).2.2 =
      [BrokerCall.publishEvent "agent.state_changed"
         { agentId := some "a1", agentType := some "scraper",
           oldState := some .idle, newState := some .busy, timestamp := 5 },
       BrokerCall.publishEvent "task.assigned"
         { taskId := some "t1", agentId := some "a1", timestamp := 5 }] ∧
    ∀ c ∈ (assignTask idleState1 "a1" "t1" 5).2.2, c.isPublishTask = false := by
  refine ⟨rfl, rfl, ?_⟩
  decide

/-- C3 (amended): whenever assign_task succeeds, it publishes a task.assigned
event on the event exchange, and it performs no work-queue publication
(publish_task is not called); the envelope never reaches a capability work
queue from the assignment path. -/
theorem c3_assign_publishes_event_only
    (s : AgentManagerState) (agentId taskId : String) (now : Nat)
    (h : (assignTask s agentId taskId now).1 = true) :
    BrokerCall.publishEvent "task.assigned"
        { taskId := some taskId, agentId := some agentId, timestamp := now }
      ∈ (assignTask s agentId taskId now).2.2 ∧
    ∀ c ∈ (assignTask s agentId taskId now).2.2, c.isPublishTask = false := by
  cases hfa : findAgent s.agents agentId with
  | none => simp [assignTask, hfa] at h
  | some p =>
    obtain ⟨ty, ag⟩ := p
    by_cases hst : ag.state = .idle ∨ ag.state = .running
    · simp only [assignTask, hfa]
      rw [if_pos hst]
      simp only [updateAgentState, findAgent_updateAgentIn_self, hfa, Option.map_some]
      simp [BrokerCall.isPublishTask]
    · simp [assignTask, hfa, hst] at h

/-- C3, witness: the amended theorem at the concrete successful assignment. -/
theorem c3_assign_publishes_event_only_witness :
    BrokerCall.publishEvent "task.assigned"
        { taskId := some "t1", agentId := some "a1", timestamp := 5 }
      ∈ (assignTask idleState1 "a1" "t1" 5).2.2 :=
  (c3_assign_publishes_event_only idleState1 "a1" "t1" 5 rfl).1

/-! ## C7: ownership guard of complete_task and fail_task -/

/-- C7: complete_task and fail_task called for an agent that does not exist,
or with a task id the agent does not currently hold, return False and change
nothing — no agent, no task list and no publication is touched. -/
theorem c7_ownership_guard (s : AgentManagerState)
    (agentId taskId res err : String) (now : Nat)
    (h : ∀ ty ag, findAgent s.agents agentId = some (ty, ag) →
        taskId ∉ ag.currentTasks) :
    amCompleteTask s agentId taskId res now = (false, s, []) ∧
    amFailTask s agentId taskId err now = (false, s, []) := by
  cases hfa : findAgent s.agents agentId with
  | none => simp [amCompleteTask, amFailTask, hfa]
  | some p =>
    obtain ⟨ty, ag⟩ := p
    have hnot := h ty ag hfa
    simp [amCompleteTask, amFailTask, hfa, hnot]

/-- C7, witness: the guard at the concrete busy agent and a task it does not
hold. -/
theorem c7_ownership_guard_witness :
    amCompleteTask busyState1 "a1" "tX" "r" 5 = (false, busyState1, []) ∧
    amFailTask busyState1 "a1" "tX" "boom" 5 = (false, busyState1, []) :=
  c7_ownership_guard busyState1 "a1" "tX" "r" "boom" 5 (by
    intro ty ag hfa
    have hx : some ("scraper", busyAgent1) = some (ty, ag) := by
      rw [← hfa]
      rfl
    have hag : ag = busyAgent1 := by
      cases hx
      rfl
    subst hag
    decide)

/-! ## C10: stopping an agent that still holds tasks -/

theorem findAgent_some_elim {pools : List (String × List (String × Agent))}
    {x ty : String} {a : Agent} (h : findAgent pools x = some (ty, a)) :
    ∃ pool, (ty, pool) ∈ pools ∧ dlookup x pool = some a := by
  induction pools with
  | nil => simp [findAgent] at h
  | cons p rest ih =>
    obtain ⟨ty₀, pool₀⟩ := p
    cases h0 : dlookup x pool₀ with
    | some a₀ =>
      simp [findAgent, h0] at h
      obtain ⟨h1, h2⟩ := h
      subst h1
      subst h2
      exact ⟨pool₀, List.mem_cons_self _ _, h0⟩
    | none =>
      simp [findAgent, h0] at h
      obtain ⟨pool, hmem, hl⟩ := ih h
      exact ⟨pool, List.mem_cons_of_mem _ hmem, hl⟩

theorem findAgent_eq_none_of_not_mem {pools : List (String × List (String × Agent))}
    {x : String} (h : x ∉ allAgentIds pools) : findAgent pools x = none := by
  induction pools with
  | nil => rfl
  | cons p rest ih =>
    obtain ⟨ty₀, pool₀⟩ := p
    simp [allAgentIds] at h
    have h0 : dlookup x pool₀ = none := by
      rw [dlookup_eq_none_iff]
      intro hmem
      exact h.1 hmem
    simp [findAgent, h0]
    exact ih (by simpa [allAgentIds] using h.2)

theorem dkeys_mem_of_dlookup_some {α : Type} {k : String} {v : α}
    {l : List (String × α)} (h : dlookup k l = some v) : k ∈ dkeys l := by
  have := mem_of_dlookup h
  simpa [dkeys] using List.mem_map_of_mem Prod.fst this

theorem dkeys_updateAgentIn (pools : List (String × List (String × Agent)))
    (k : String) (f : Agent → Agent) :
    dkeys (updateAgentIn pools k f) = dkeys pools := by
  induction pools with
  | nil => simp [updateAgentIn]
  | cons p rest ih =>
    obtain ⟨ty₀, pool₀⟩ := p
    by_cases h : dmem k pool₀
    · simp [updateAgentIn, h, dkeys]
    · simp only [updateAgentIn, if_neg h]
      simp [dkeys] at ih ⊢
      exact ih

theorem allAgentIds_updateAgentIn (pools : List (String × List (String × Agent)))
    (k : String) (f : Agent → Agent) :
    allAgentIds (updateAgentIn pools k f) = allAgentIds pools := by
  induction pools with
  | nil => simp [updateAgentIn]
  | cons p rest ih =>
    obtain ⟨ty₀, pool₀⟩ := p
    by_cases h : dmem k pool₀
    · simp [updateAgentIn, h, allAgentIds, dkeys_dupdate]
    · simp only [updateAgentIn, if_neg h]
      simp [allAgentIds] at ih ⊢
      exact ih

/-- Removal of an agent from the pool where findAgent locates it empties
every occurrence of the id (given global id uniqueness and unique pool
keys). -/
theorem findAgent_remove_self {pools : List (String × List (String × Agent))}
    {x ty : String} {a : Agent}
    (hpk : (dkeys pools).Nodup) (hids : (allAgentIds pools).Nodup)
    (hfa : findAgent pools x = some (ty, a)) :
    findAgent (dupdate ty (fun pool => derase x pool) pools) x = none := by
  induction pools with
  | nil => simp [findAgent] at hfa
  | cons p rest ih =>
    obtain ⟨ty₀, pool₀⟩ := p
    have hpk' : ty₀ ∉ dkeys rest ∧ (dkeys rest).Nodup :=
      List.nodup_cons.mp (show (ty₀ :: dkeys rest).Nodup from hpk)
    have hids' : (dkeys pool₀ ++ allAgentIds rest).Nodup := hids
    cases h0 : dlookup x pool₀ with
    | some a₀ =>
      simp [findAgent, h0] at hfa
      obtain ⟨h1, _⟩ := hfa
      subst h1
      have hxkeys : x ∈ dkeys pool₀ := dkeys_mem_of_dlookup_some h0
      have hxrest : x ∉ allAgentIds rest :=
        (List.disjoint_of_nodup_append hids') hxkeys
      simp [dupdate, findAgent, dlookup_derase_self]
      exact findAgent_eq_none_of_not_mem hxrest
    | none =>
      simp [findAgent, h0] at hfa
      have hty : ty₀ ≠ ty := by
        intro he
        subst he
        obtain ⟨pool, hmem, _⟩ := findAgent_some_elim hfa
        exact hpk'.1 (by simpa [dkeys] using List.mem_map_of_mem Prod.fst hmem)
      simp [dupdate, hty, findAgent, h0]
      exact ih hpk'.2 (hids'.of_append_right) hfa

/-- Removing the bindings of one id from one pool leaves the lookup of every
other id unchanged. -/
theorem findAgent_remove_ne (pools : List (String × List (String × Agent)))
    (ty j x : String) (hne : x ≠ j) :
    findAgent (dupdate ty (fun pool => derase j pool) pools) x =
      findAgent pools x := by
  induction pools with
  | nil => simp [dupdate]
  | cons p rest ih =>
    obtain ⟨ty₀, pool₀⟩ := p
    by_cases h : ty₀ = ty
    · subst h
      simp [dupdate, findAgent, dlookup_derase_ne _ _ _ (Ne.symm hne)]
    · simp [dupdate, h, findAgent, ih]

/-- C10: stop_agent on an agent that still holds tasks proceeds all the way:
it returns True, removes the agent and its agent_tasks entry from the
registry, leaves every other agent untouched, and its published events are
exactly the two agent.state_changed events (to STOPPING, then STOPPED) plus
agent.stopping and agent.stopped — no task.failed or task.completed event is
emitted, so the coordinator event handler leaves any task store unchanged and
the held tasks are neither completed, failed nor reassigned. -/
theorem c10_stop_agent_abandons_tasks (s : AgentManagerState)
    (agentId ty : String) (agent : Agent) (now : Nat)
    (hpk : (dkeys s.agents).Nodup) (hids : (allAgentIds s.agents).Nodup)
    (hfa : findAgent s.agents agentId = some (ty, agent))
    (hheld : agent.currentTasks ≠ []) :
    (stopAgent s agentId now).1 = true ∧
    findAgent (stopAgent s agentId now).2.1.agents agentId = none ∧
    dlookup agentId (stopAgent s agentId now).2.1.agentTasks = none ∧
    (∀ x, x ≠ agentId →
        findAgent (stopAgent s agentId now).2.1.agents x = findAgent s.agents x) ∧
    (stopAgent s agentId now).2.2 =
      [BrokerCall.publishEvent "agent.state_changed"
         { agentId := some agentId, agentType := some ty,
           oldState := some agent.state, newState := some .stopping, timestamp := now },
       BrokerCall.publishEvent "agent.stopping"
         { agentId := some agentId, agentType := some ty, timestamp := now },
       BrokerCall.publishEvent "agent.state_changed"
         { agentId := some agentId, agentType := some ty,
           oldState := some .stopping, newState := some .stopped, timestamp := now },
       BrokerCall.publishEvent "agent.stopped"
         { agentId := some agentId, agentType := some ty, timestamp := now }] ∧
    (∀ c ∈ (stopAgent s agentId now).2.2,
        c.isPublishTask = false ∧ c.eventType ≠ some "task.failed" ∧
        c.eventType ≠ some "task.completed") ∧
    (∀ tq : TaskQueueState, applyTaskEvents tq (stopAgent s agentId now).2.2 now = tq) := by
  have hevs : (stopAgent s agentId now).2.2 =
      [BrokerCall.publishEvent "agent.state_changed"
         { agentId := some agentId, agentType := some ty,
           oldState := some agent.state, newState := some .stopping, timestamp := now },
       BrokerCall.publishEvent "agent.stopping"
         { agentId := some agentId, agentType := some ty, timestamp := now },
       BrokerCall.publishEvent "agent.state_changed"
         { agentId := some agentId, agentType := some ty,
           oldState := some .stopping, newState := some .stopped, timestamp := now },
       BrokerCall.publishEvent "agent.stopped"
         { agentId := some agentId, agentType := some ty, timestamp := now }] := by
    simp [stopAgent, hfa, updateAgentState, findAgent_updateAgentIn_self]
  refine ⟨?_, ?_, ?_, ?_, hevs, ?_, ?_⟩
  · simp [stopAgent, hfa, updateAgentState, findAgent_updateAgentIn_self]
  · simp only [stopAgent, hfa, updateAgentState, findAgent_updateAgentIn_self,
      Option.map_some', updateAgentIn_comp]
    have h1 : (dkeys (updateAgentIn s.agents agentId
        (fun a => { a with state := AgentState.stopped }))).Nodup := by
      rw [dkeys_updateAgentIn]
      exact hpk
    have h2 : (allAgentIds (updateAgentIn s.agents agentId
        (fun a => { a with state := AgentState.stopped }))).Nodup := by
      rw [allAgentIds_updateAgentIn]
      exact hids
    have hfa2 : findAgent (updateAgentIn s.agents agentId
        (fun a => { a with state := AgentState.stopped })) agentId =
        some (ty, { agent with state := AgentState.stopped }) := by
      rw [findAgent_updateAgentIn_self, hfa]
      rfl
    exact findAgent_remove_self h1 h2 hfa2
  · simp [stopAgent, hfa, updateAgentState, findAgent_updateAgentIn_self,
      dlookup_derase_self]
  · intro x hx
    simp only [stopAgent, hfa, updateAgentState, findAgent_updateAgentIn_self,
      Option.map_some', updateAgentIn_comp]
    rw [findAgent_remove_ne _ _ _ _ hx]
    exact findAgent_updateAgentIn_ne _ _ _ _ hx
  · intro c hc
    rw [hevs] at hc
    simp at hc
    rcases hc with h | h | h | h <;> subst h <;>
      exact ⟨rfl, by simp [BrokerCall.eventType], by simp [BrokerCall.eventType]⟩
  · intro tq
    rw [hevs]
    simp [applyTaskEvents, handleTaskEvent]

/-- C10, witness: stopping the concrete busy agent removes it while emitting
no task events. -/
theorem c10_stop_agent_abandons_tasks_witness :
    (stopAgent busyState1 "a1" 5).1 = true ∧
    findAgent (stopAgent busyState1 "a1" 5).2.1.agents "a1" = none :=
  let h := c10_stop_agent_abandons_tasks busyState1 "a1" "scraper" busyAgent1 5
    (by decide) (by decide) rfl (by decide)
  ⟨h.1, h.2.1⟩

/-! ## C8: the health sweep -/

theorem sweepAgent_frame (s : AgentManagerState) (ty b x : String) (now : Nat)
    (hx : x ≠ b) :
    findAgent ((sweepAgent s ty b now).1).agents x = findAgent s.agents x := by
  cases hb : findAgent s.agents b with
  | none => simp [sweepAgent, hb]
  | some p =>
    obtain ⟨ty₀, ag⟩ := p
    by_cases hskip : ag.state = .starting ∨ ag.state = .stopping ∨ ag.state = .stopped
    · simp [sweepAgent, hb, hskip]
    · by_cases hstale : now - ag.lastHeartbeat > 60
      · by_cases htasks : ag.currentTasks = []
        · simp [sweepAgent, hb, hskip, hstale, updateAgentState, handleAgentFailure,
            findAgent_updateAgentIn_self, findAgent_updateAgentIn_ne _ _ _ _ hx, htasks]
        · simp [sweepAgent, hb, hskip, hstale, updateAgentState, handleAgentFailure,
            findAgent_updateAgentIn_self, updateAgentIn_comp,
            findAgent_updateAgentIn_ne _ _ _ _ hx, htasks]
      · simp [sweepAgent, hb, hskip, hstale]

theorem sweepAgent_target (s : AgentManagerState) (ty ty₀ x : String)
    (agent : Agent) (now : Nat)
    (hfa : findAgent s.agents x = some (ty₀, agent))
    (hskip : ¬(agent.state = .starting ∨ agent.state = .stopping ∨
               agent.state = .stopped))
    (hstale : now - agent.lastHeartbeat > 60) :
    findAgent ((sweepAgent s ty x now).1).agents x =
      some (ty₀, { agent with state := .error, currentTasks := [] }) ∧
    BrokerCall.publishEvent "agent.error"
        { agentId := some x, agentType := some ty,
          error := some "Agent heartbeat timeout", timestamp := now }
      ∈ (sweepAgent s ty x now).2 ∧
    ∀ t ∈ agent.currentTasks,
      BrokerCall.publishEvent "task.failed"
          { taskId := some t, agentId := some x,
            error := some "Agent failure", timestamp := now }
        ∈ (sweepAgent s ty x now).2 := by
  obtain ⟨aid, aty, ast, asa, ahb, acts⟩ := agent
  by_cases htasks : acts = []
  · subst htasks
    refine ⟨?_, ?_, ?_⟩
    · simp [sweepAgent, hfa, hskip, hstale, updateAgentState, handleAgentFailure,
        findAgent_updateAgentIn_self]
    · simp [sweepAgent, hfa, hskip, hstale, updateAgentState, handleAgentFailure,
        findAgent_updateAgentIn_self]
    · intro t ht
      simp at ht
  · refine ⟨?_, ?_, ?_⟩
    · simp [sweepAgent, hfa, hskip, hstale, updateAgentState, handleAgentFailure,
        findAgent_updateAgentIn_self, updateAgentIn_comp, htasks]
    · simp [sweepAgent, hfa, hskip, hstale, updateAgentState, handleAgentFailure,
        findAgent_updateAgentIn_self, htasks]
    · intro t ht
      simp [sweepAgent, hfa, hskip, hstale, updateAgentState, handleAgentFailure,
        findAgent_updateAgentIn_self, htasks]
      exact ht

theorem sweepAgent_events_shape (s : AgentManagerState) (ty b : String) (now : Nat) :
    ∀ c ∈ (sweepAgent s ty b now).2, ∃ ety d, c = BrokerCall.publishEvent ety d ∧
      (ety = "agent.state_changed" ∨ ety = "agent.error" ∨ ety = "task.failed") := by
  intro c hc
  cases hb : findAgent s.agents b with
  | none => simp [sweepAgent, hb] at hc
  | some p =>
    obtain ⟨ty₀, ag⟩ := p
    by_cases hskip : ag.state = .starting ∨ ag.state = .stopping ∨ ag.state = .stopped
    · simp [sweepAgent, hb, hskip] at hc
    · by_cases hstale : now - ag.lastHeartbeat > 60
      · by_cases htasks : ag.currentTasks = []
        · simp [sweepAgent, hb, hskip, hstale, updateAgentState, handleAgentFailure,
            findAgent_updateAgentIn_self, htasks] at hc
          rcases hc with h | h <;> subst h
          · exact ⟨_, _, rfl, Or.inl rfl⟩
          · exact ⟨_, _, rfl, Or.inr (Or.inl rfl)⟩
        · simp [sweepAgent, hb, hskip, hstale, updateAgentState, handleAgentFailure,
            findAgent_updateAgentIn_self, htasks] at hc
          rcases hc with h | h | h
          · subst h
            exact ⟨_, _, rfl, Or.inl rfl⟩
          · subst h
            exact ⟨_, _, rfl, Or.inr (Or.inl rfl)⟩
          · obtain ⟨t, _, h⟩ := h
            subst h
            exact ⟨_, _, rfl, Or.inr (Or.inr rfl)⟩
      · simp [sweepAgent, hb, hskip, hstale] at hc

theorem sweepPool_frame (s : AgentManagerState) (ty : String) (ids : List String)
    (now : Nat) (x : String) (hx : x ∉ ids) :
    findAgent ((sweepPool s ty ids now).1).agents x = findAgent s.agents x := by
  induction ids generalizing s with
  | nil => simp [sweepPool]
  | cons b rest ih =>
    simp at hx
    simp only [sweepPool]
    rw [ih _ hx.2]
    exact sweepAgent_frame s ty b x now hx.1

theorem sweepPool_events_sub (s : AgentManagerState) (ty : String)
    (ids : List String) (now : Nat) :
    ∀ c ∈ (sweepPool s ty ids now).2, ∃ ety d, c = BrokerCall.publishEvent ety d ∧
      (ety = "agent.state_changed" ∨ ety = "agent.error" ∨ ety = "task.failed") := by
  induction ids generalizing s with
  | nil => simp [sweepPool]
  | cons b rest ih =>
    intro c hc
    simp only [sweepPool, List.mem_append] at hc
    rcases hc with h | h
    · exact sweepAgent_events_shape s ty b now c h
    · exact ih _ c h

theorem sweepPool_target (s : AgentManagerState) (ty ty₀ x : String)
    (agent : Agent) (ids : List String) (now : Nat)
    (hmem : x ∈ ids) (hnd : ids.Nodup)
    (hfa : findAgent s.agents x = some (ty₀, agent))
    (hskip : ¬(agent.state = .starting ∨ agent.state = .stopping ∨
               agent.state = .stopped))
    (hstale : now - agent.lastHeartbeat > 60) :
    findAgent ((sweepPool s ty ids now).1).agents x =
      some (ty₀, { agent with state := .error, currentTasks := [] }) ∧
    BrokerCall.publishEvent "agent.error"
        { agentId := some x, agentType := some ty,
          error := some "Agent heartbeat timeout", timestamp := now }
      ∈ (sweepPool s ty ids now).2 ∧
    ∀ t ∈ agent.currentTasks,
      BrokerCall.publishEvent "task.failed"
          { taskId := some t, agentId := some x,
            error := some "Agent failure", timestamp := now }
        ∈ (sweepPool s ty ids now).2 := by
  induction ids generalizing s with
  | nil => simp at hmem
  | cons b rest ih =>
    rcases List.mem_cons.mp hmem with hb | hb
    · subst hb
      have hx : x ∉ rest := (List.nodup_cons.mp hnd).1
      obtain ⟨h1, h2, h3⟩ := sweepAgent_target s ty ty₀ x agent now hfa hskip hstale
      simp only [sweepPool, List.mem_append]
      refine ⟨?_, Or.inl h2, fun t ht => Or.inl (h3 t ht)⟩
      rw [sweepPool_frame _ _ _ _ _ hx]
      exact h1
    · by_cases hbx : x = b
      · subst hbx
        exact absurd hb (List.nodup_cons.mp hnd).1
      · have hfa1 : findAgent ((sweepAgent s ty b now).1).agents x =
            some (ty₀, agent) := by
          rw [sweepAgent_frame s ty b x now hbx]
          exact hfa
        obtain ⟨h1, h2, h3⟩ := ih _ hb (List.nodup_cons.mp hnd).2 hfa1
        simp only [sweepPool, List.mem_append]
        exact ⟨h1, Or.inr h2, fun t ht => Or.inr (h3 t ht)⟩

theorem findAgent_of_binding {pools : List (String × List (String × Agent))}
    {ty x : String} {agent : Agent} {pool : List (String × Agent)}
    (hnd : (allAgentIds pools).Nodup)
    (hpool : (ty, pool) ∈ pools) (hbind : (x, agent) ∈ pool) :
    findAgent pools x = some (ty, agent) := by
  induction pools with
  | nil => simp at hpool
  | cons p rest ih =>
    obtain ⟨ty₁, pool₁⟩ := p
    have hnd1 : (dkeys pool₁ ++ allAgentIds rest).Nodup := hnd
    rcases List.mem_cons.mp hpool with hhead | htail
    · obtain ⟨e1, e2⟩ := Prod.mk.injEq .. ▸ hhead
      subst e1
      subst e2
      have hl : dlookup x pool = some agent :=
        dlookup_of_mem hbind hnd1.of_append_left
      simp [findAgent, hl]
    · have hxpool : x ∈ dkeys pool := by
        simpa [dkeys] using List.mem_map_of_mem Prod.fst hbind
      have hxrest : x ∈ allAgentIds rest := by
        rw [show allAgentIds rest = (rest.map (fun p => dkeys p.2)).flatten from rfl,
          List.mem_flatten]
        exact ⟨dkeys pool, List.mem_map_of_mem _ htail, hxpool⟩
      have hx1 : dlookup x pool₁ = none := by
        rw [dlookup_eq_none_iff]
        intro hk
        exact (List.disjoint_of_nodup_append hnd1) hk hxrest
      simp [findAgent, hx1]
      exact ih hnd1.of_append_right htail

theorem sweepPools_frame (s : AgentManagerState)
    (snapshot : List (String × List String)) (now : Nat) (x : String)
    (hx : ∀ g ∈ snapshot, x ∉ g.2) :
    findAgent ((sweepPools s snapshot now).1).agents x = findAgent s.agents x := by
  induction snapshot generalizing s with
  | nil => simp [sweepPools]
  | cons g rest ih =>
    obtain ⟨ty, ids⟩ := g
    simp only [sweepPools]
    rw [ih _ (fun g hg => hx g (List.mem_cons_of_mem _ hg))]
    exact sweepPool_frame s ty ids now x (hx (ty, ids) (List.mem_cons_self _ _))

theorem sweepPools_events_sub (s : AgentManagerState)
    (snapshot : List (String × List String)) (now : Nat) :
    ∀ c ∈ (sweepPools s snapshot now).2, ∃ ety d, c = BrokerCall.publishEvent ety d ∧
      (ety = "agent.state_changed" ∨ ety = "agent.error" ∨ ety = "task.failed") := by
  induction snapshot generalizing s with
  | nil => simp [sweepPools]
  | cons g rest ih =>
    obtain ⟨ty, ids⟩ := g
    intro c hc
    simp only [sweepPools, List.mem_append] at hc
    rcases hc with h | h
    · exact sweepPool_events_sub s ty ids now c h
    · exact ih _ c h

theorem sweepPools_target (s : AgentManagerState)
    (snapshot : List (String × List String)) (ty ty₀ x : String)
    (agent : Agent) (ids : List String) (now : Nat)
    (hg : (ty, ids) ∈ snapshot) (hmem : x ∈ ids)
    (hnd : ((snapshot.map Prod.snd).flatten).Nodup)
    (hfa : findAgent s.agents x = some (ty₀, agent))
    (hskip : ¬(agent.state = .starting ∨ agent.state = .stopping ∨
               agent.state = .stopped))
    (hstale : now - agent.lastHeartbeat > 60) :
    findAgent ((sweepPools s snapshot now).1).agents x =
      some (ty₀, { agent with state := .error, currentTasks := [] }) ∧
    BrokerCall.publishEvent "agent.error"
        { agentId := some x, agentType := some ty,
          error := some "Agent heartbeat timeout", timestamp := now }
      ∈ (sweepPools s snapshot now).2 ∧
    ∀ t ∈ agent.currentTasks,
      BrokerCall.publishEvent "task.failed"
          { taskId := some t, agentId := some x,
            error := some "Agent failure", timestamp := now }
        ∈ (sweepPools s snapshot now).2 := by
  induction snapshot generalizing s with
  | nil => simp at hg
  | cons g rest ih =>
    obtain ⟨ty₁, ids₁⟩ := g
    have hnd1 : (ids₁ ++ (rest.map Prod.snd).flatten).Nodup := hnd
    rcases List.mem_cons.mp hg with hhead | htail
    · obtain ⟨e1, e2⟩ := Prod.mk.injEq .. ▸ hhead
      subst e1
      subst e2
      have hxrest : ∀ g ∈ rest, x ∉ g.2 := by
        intro g hgmem hxg
        have hxflat : x ∈ (rest.map Prod.snd).flatten := by
          rw [List.mem_flatten]
          exact ⟨g.2, List.mem_map_of_mem Prod.snd hgmem, hxg⟩
        exact (List.disjoint_of_nodup_append hnd1) hmem hxflat
      have hidnd : ids.Nodup := hnd1.of_append_left
      obtain ⟨h1, h2, h3⟩ :=
        sweepPool_target s ty ty₀ x agent ids now hmem hidnd hfa hskip hstale
      simp only [sweepPools, List.mem_append]
      refine ⟨?_, Or.inl h2, fun t ht => Or.inl (h3 t ht)⟩
      rw [sweepPools_frame _ _ _ _ hxrest]
      exact h1
    · have hxflat : x ∈ (rest.map Prod.snd).flatten := by
        rw [List.mem_flatten]
        exact ⟨ids, List.mem_map_of_mem Prod.snd htail, hmem⟩
      have hx1 : x ∉ ids₁ := by
        intro hxg
        exact (List.disjoint_of_nodup_append hnd1) hxg hxflat
      have hfa1 : findAgent ((sweepPool s ty₁ ids₁ now).1).agents x =
          some (ty₀, agent) := by
        rw [sweepPool_frame _ _ _ _ _ hx1]
        exact hfa
      obtain ⟨h1, h2, h3⟩ := ih _ htail hnd1.of_append_right hfa1
      simp only [sweepPools, List.mem_append]
      exact ⟨h1, Or.inr h2, fun t ht => Or.inr (h3 t ht)⟩

/-- C8: when the health check actually runs (the rate-limit interval has
elapsed), every agent outside STARTING/STOPPING/STOPPED whose heartbeat is
more than 60 seconds old is transitioned to ERROR and kept in the registry
with its task list drained; an agent.error event is published, and a
task.failed event with the fixed error "Agent failure" goes out for every
task it held; nothing in the emitted trace restarts an agent (no
agent.started), re-queues or re-assigns a task (no task.assigned), or
publishes to a work queue. -/
theorem c8_health_sweep (s : AgentManagerState) (x ty : String)
    (agent : Agent) (pool : List (String × Agent)) (now : Nat)
    (hrun : ¬(now - s.lastHealthCheck < healthCheckInterval))
    (hnd : (allAgentIds s.agents).Nodup)
    (hpool : (ty, pool) ∈ s.agents) (hbind : (x, agent) ∈ pool)
    (hskip : ¬(agent.state = .starting ∨ agent.state = .stopping ∨
               agent.state = .stopped))
    (hstale : now - agent.lastHeartbeat > 60) :
    findAgent ((checkAgentHealth s now).1).agents x =
      some (ty, { agent with state := .error, currentTasks := [] }) ∧
    BrokerCall.publishEvent "agent.error"
        { agentId := some x, agentType := some ty,
          error := some "Agent heartbeat timeout", timestamp := now }
      ∈ (checkAgentHealth s now).2 ∧
    (∀ t ∈ agent.currentTasks,
      BrokerCall.publishEvent "task.failed"
          { taskId := some t, agentId := some x,
            error := some "Agent failure", timestamp := now }
        ∈ (checkAgentHealth s now).2) ∧
    (∀ c ∈ (checkAgentHealth s now).2,
      c.isPublishTask = false ∧ c.eventType ≠ some "agent.started" ∧
      c.eventType ≠ some "task.assigned") := by
  have hfa : findAgent s.agents x = some (ty, agent) :=
    findAgent_of_binding hnd hpool hbind
  have hg : (ty, dkeys pool) ∈ s.agents.map (fun p => (p.1, dkeys p.2)) :=
    List.mem_map_of_mem _ hpool
  have hmem : x ∈ dkeys pool := by
    simpa [dkeys] using List.mem_map_of_mem Prod.fst hbind
  have hnd' : (((s.agents.map (fun p => (p.1, dkeys p.2))).map Prod.snd).flatten).Nodup := by
    simpa [allAgentIds, List.map_map, Function.comp] using hnd
  have hfa₀ : findAgent (AgentManagerState.mk s.agents s.agentTasks now).agents x =
      some (ty, agent) := hfa
  obtain ⟨h1, h2, h3⟩ :=
    sweepPools_target { s with lastHealthCheck := now }
      (s.agents.map (fun p => (p.1, dkeys p.2))) ty ty x agent (dkeys pool) now
      hg hmem hnd' hfa hskip hstale
  have hshape := sweepPools_events_sub { s with lastHealthCheck := now }
    (s.agents.map (fun p => (p.1, dkeys p.2))) now
  simp only [checkAgentHealth, if_neg hrun]
  refine ⟨h1, h2, h3, ?_⟩
  intro c hc
  obtain ⟨ety, d, hceq, hety⟩ := hshape c hc
  subst hceq
  rcases hety with h | h | h <;> subst h <;>
    exact ⟨rfl, by simp [BrokerCall.eventType], by simp [BrokerCall.eventType]⟩

/-- C8, witness: a concrete stale busy agent is swept to ERROR with its task
force-failed. -/
theorem c8_health_sweep_witness :
    findAgent ((checkAgentHealth busyState1 400).1).agents "a1" =
      some ("scraper", { busyAgent1 with state := .error, currentTasks := [] }) ∧
    BrokerCall.publishEvent "task.failed"
        { taskId := some "t0", agentId := some "a1",
          error := some "Agent failure", timestamp := 400 }
      ∈ (checkAgentHealth busyState1 400).2 :=
  let h := c8_health_sweep busyState1 "a1" "scraper" busyAgent1
    [("a1", busyAgent1)] 400 (by decide) (by decide)
    (by decide) (by decide) (by decide) (by decide)
  ⟨h.1, h.2.2.1 "t0" (by decide)⟩

/-! ## C5: each task id lives in exactly one partition -/

theorem dmem_dinsert_self {α : Type} (k : String) (v : α) (l : List (String × α)) :
    dmem k (dinsert k v l) = true := by
  simp [dmem, dlookup_dinsert_self]

theorem dmem_dinsert_ne {α : Type} (k j : String) (v : α) (l : List (String × α))
    (h : j ≠ k) : dmem j (dinsert k v l) = dmem j l := by
  simp [dmem, dlookup_dinsert_ne _ _ _ _ (Ne.symm h)]

theorem dmem_derase_self {α : Type} (k : String) (l : List (String × α)) :
    dmem k (derase k l) = false := by
  simp [dmem, dlookup_derase_self]

theorem dmem_derase_ne {α : Type} (k j : String) (l : List (String × α))
    (h : j ≠ k) : dmem j (derase k l) = dmem j l := by
  simp [dmem, dlookup_derase_ne _ _ _ (Ne.symm h)]

theorem partitionCount_tqAssignTask (s : TaskQueueState) (taskId agentId : String)
    (now : Nat) (h : ∀ id, partitionCount s id ≤ 1) :
    ∀ id, partitionCount (tqAssignTask s taskId agentId now) id ≤ 1 := by
  intro id
  cases hl : dlookup taskId s.pendingTasks with
  | none => simpa [tqAssignTask, hl] using h id
  | some task =>
    by_cases hid : id = taskId
    · subst hid
      have hp : dmem id s.pendingTasks = true := by simp [dmem, hl]
      have h1 := h id
      cases hb : dmem id s.processingTasks <;> cases hc : dmem id s.completedTasks <;>
        cases hd : dmem id s.failedTasks <;>
        simp [partitionCount, hp, hb, hc, hd] at h1 <;>
        simp [tqAssignTask, hl, partitionCount, dmem_derase_self, dmem_dinsert_self,
          hb, hc, hd]
    · have h1 := h id
      simpa [tqAssignTask, hl, partitionCount, dmem_derase_ne _ _ _ hid,
        dmem_dinsert_ne _ _ _ _ hid] using h1

theorem partitionCount_tqCompleteTask (s : TaskQueueState) (taskId res : String)
    (now : Nat) (h : ∀ id, partitionCount s id ≤ 1) :
    ∀ id, partitionCount (tqCompleteTask s taskId res now) id ≤ 1 := by
  intro id
  cases hl : dlookup taskId s.processingTasks with
  | none => simpa [tqCompleteTask, hl] using h id
  | some task =>
    by_cases hid : id = taskId
    · subst hid
      have hp : dmem id s.processingTasks = true := by simp [dmem, hl]
      have h1 := h id
      cases hb : dmem id s.pendingTasks <;> cases hc : dmem id s.completedTasks <;>
        cases hd : dmem id s.failedTasks <;>
        simp [partitionCount, hp, hb, hc, hd] at h1 <;>
        simp [tqCompleteTask, hl, partitionCount, dmem_derase_self, dmem_dinsert_self,
          hb, hc, hd]
    · have h1 := h id
      simpa [tqCompleteTask, hl, partitionCount, dmem_derase_ne _ _ _ hid,
        dmem_dinsert_ne _ _ _ _ hid] using h1

theorem partitionCount_tqFailTask (s : TaskQueueState) (taskId err : String)
    (now : Nat) (h : ∀ id, partitionCount s id ≤ 1) :
    ∀ id, partitionCount (tqFailTask s taskId err now) id ≤ 1 := by
  intro id
  cases hl : dlookup taskId s.pendingTasks with
  | some task =>
    by_cases hid : id = taskId
    · subst hid
      have hp : dmem id s.pendingTasks = true := by simp [dmem, hl]
      have h1 := h id
      cases hb : dmem id s.processingTasks <;> cases hc : dmem id s.completedTasks <;>
        cases hd : dmem id s.failedTasks <;>
        simp [partitionCount, hp, hb, hc, hd] at h1 <;>
        simp [tqFailTask, hl, partitionCount, dmem_derase_self, dmem_dinsert_self,
          hb, hc, hd]
    · have h1 := h id
      simpa [tqFailTask, hl, partitionCount, dmem_derase_ne _ _ _ hid,
        dmem_dinsert_ne _ _ _ _ hid] using h1
  | none =>
    cases hl2 : dlookup taskId s.processingTasks with
    | none => simpa [tqFailTask, hl, hl2] using h id
    | some task =>
      by_cases hid : id = taskId
      · subst hid
        have hp : dmem id s.processingTasks = true := by simp [dmem, hl2]
        have h1 := h id
        cases hb : dmem id s.pendingTasks <;> cases hc : dmem id s.completedTasks <;>
          cases hd : dmem id s.failedTasks <;>
          simp [partitionCount, hp, hb, hc, hd] at h1 <;>
          simp [tqFailTask, hl, hl2, partitionCount, dmem_derase_self,
            dmem_dinsert_self, hb, hc, hd]
      · have h1 := h id
        simpa [tqFailTask, hl, hl2, partitionCount, dmem_derase_ne _ _ _ hid,
          dmem_dinsert_ne _ _ _ _ hid] using h1

theorem partitionCount_tqRetryTask (s : TaskQueueState) (taskId : String)
    (now : Nat) (h : ∀ id, partitionCount s id ≤ 1) :
    ∀ id, partitionCount (tqRetryTask s taskId now).1 id ≤ 1 := by
  intro id
  cases hl : dlookup taskId s.failedTasks with
  | none => simpa [tqRetryTask, hl] using h id
  | some task =>
    by_cases hid : id = taskId
    · subst hid
      have hp : dmem id s.failedTasks = true := by simp [dmem, hl]
      have h1 := h id
      cases hb : dmem id s.pendingTasks <;> cases hc : dmem id s.processingTasks <;>
        cases hd : dmem id s.completedTasks <;>
        simp [partitionCount, hp, hb, hc, hd] at h1 <;>
        simp [tqRetryTask, hl, partitionCount, dmem_derase_self, dmem_dinsert_self,
          hb, hc, hd]
    · have h1 := h id
      simpa [tqRetryTask, hl, partitionCount, dmem_derase_ne _ _ _ hid,
        dmem_dinsert_ne _ _ _ _ hid] using h1

theorem partitionCount_addTask (s : TaskQueueState)
    (taskId taskType taskData : String) (now : Nat)
    (fresh : tqHasTask s taskId = false) (h : ∀ id, partitionCount s id ≤ 1) :
    ∀ id, partitionCount (addTask s taskId taskType taskData now).1 id ≤ 1 := by
  intro id
  by_cases hid : id = taskId
  · subst hid
    simp [tqHasTask] at fresh
    obtain ⟨⟨⟨f1, f2⟩, f3⟩, f4⟩ := fresh
    simp [addTask, partitionCount, dmem_dinsert_self, f2, f3, f4]
  · have h1 := h id
    simpa [addTask, partitionCount, dmem_dinsert_ne _ _ _ _ hid] using h1

theorem partitionCount_assignLoop (tq : TaskQueueState) (am : AgentManagerState)
    (tasks : List Task) (avail : List String) (now : Nat)
    (h : ∀ id, partitionCount tq id ≤ 1) :
    ∀ id, partitionCount (assignLoop tq am tasks avail now).1 id ≤ 1 := by
  induction tasks generalizing tq am avail with
  | nil => simpa [assignLoop] using h
  | cons t ts ih =>
    cases avail with
    | nil => simpa [assignLoop] using h
    | cons b rest =>
      simp only [assignLoop]
      exact ih _ _ _ (partitionCount_tqAssignTask _ _ _ _ h)

theorem partitionCount_processGroups (tq : TaskQueueState) (am : AgentManagerState)
    (groups : List (String × List Task)) (now : Nat)
    (h : ∀ id, partitionCount tq id ≤ 1) :
    ∀ id, partitionCount (processGroups tq am groups now).1 id ≤ 1 := by
  induction groups generalizing tq am with
  | nil => simpa [processGroups] using h
  | cons g rest ih =>
    obtain ⟨ty, ts⟩ := g
    simp only [processGroups]
    exact ih _ _ (partitionCount_assignLoop _ _ _ _ _ h)

/-- C5: in every reachable task-store state every present task id occupies
exactly one of the four partitions; each mutating operation (submission with
its fresh uuid id, scheduling assignment, completion, failure, retry, and the
scheduling pass itself) preserves the discipline because records are moved
between partitions, never copied. -/
theorem c5_one_partition_per_task {s : TaskQueueState} (h : TQReachable s) :
    ∀ taskId, tqHasTask s taskId = true → partitionCount s taskId = 1 := by
  have hle : ∀ id, partitionCount s id ≤ 1 := by
    induction h with
    | init => intro id; simp [partitionCount, TaskQueueState.init, dmem, dlookup]
    | step hr hstep ih =>
      cases hstep with
      | add taskId taskType taskData now fresh =>
        exact partitionCount_addTask _ taskId taskType taskData now fresh ih
      | assign taskId agentId now =>
        exact partitionCount_tqAssignTask _ taskId agentId now ih
      | complete taskId result now =>
        exact partitionCount_tqCompleteTask _ taskId result now ih
      | fail taskId error now =>
        exact partitionCount_tqFailTask _ taskId error now ih
      | retry taskId now =>
        exact partitionCount_tqRetryTask _ taskId now ih
      | pass am now =>
        exact partitionCount_processGroups _ am _ now ih
  intro taskId hhas
  have h1 := hle taskId
  rw [tqHasTask] at hhas
  cases ha : dmem taskId s.pendingTasks <;> cases hb : dmem taskId s.processingTasks <;>
    cases hc : dmem taskId s.completedTasks <;> cases hd : dmem taskId s.failedTasks <;>
    simp [ha, hb, hc, hd] at hhas <;>
    simp [partitionCount, ha, hb, hc, hd] at h1 ⊢

/-- C5, witness: a store reached by add, assign and fail keeps the task in
exactly one partition. -/
theorem c5_one_partition_per_task_witness :
    partitionCount (tqFailTask (tqAssignTask
        (addTask TaskQueueState.init "tsk-1" "scrape_web" "d" 0).1
        "tsk-1" "a1" 1) "tsk-1" "boom" 2) "tsk-1" = 1 :=
  c5_one_partition_per_task
    (TQReachable.step
      (TQReachable.step
        (TQReachable.step TQReachable.init
          (TQStep.add TaskQueueState.init "tsk-1" "scrape_web" "d" 0 (by decide)))
        (TQStep.assign _ "tsk-1" "a1" 1))
      (TQStep.fail _ "tsk-1" "boom" 2))
    "tsk-1" (by decide)

/-! ## C6: supporting lemmas on pool insertion and removal -/

theorem dmem_iff_mem_dkeys {α : Type} (k : String) (l : List (String × α)) :
    dmem k l = true ↔ k ∈ dkeys l := by
  rw [dmem, Option.isSome_iff_ne_none]
  constructor
  · intro h
    by_contra hk
    exact h (dlookup_eq_none_iff.mpr hk)
  · intro h hn
    exact absurd (dlookup_eq_none_iff.mp hn) (by simpa using h)

theorem dkeys_dinsert_of_not_mem {α : Type} (k : String) (v : α)
    (l : List (String × α)) (h : k ∉ dkeys l) :
    dkeys (dinsert k v l) = dkeys l ++ [k] := by
  induction l with
  | nil => simp [dinsert, dkeys]
  | cons p rest ih =>
    obtain ⟨k₀, v₀⟩ := p
    simp [dkeys] at h
    have hne : k₀ ≠ k := fun he => h.1 he.symm
    simp [dinsert, hne, dkeys]
    exact ih (by simp [dkeys, h.2])

theorem dkeys_dinsert_sub {α : Type} (k x : String) (v : α)
    (l : List (String × α)) (h : x ∈ dkeys (dinsert k v l)) :
    x ∈ dkeys l ∨ x = k := by
  by_cases hx : x = k
  · exact Or.inr hx
  · left
    by_contra hmem
    have h1 : dlookup x l = none := dlookup_eq_none_iff.mpr hmem
    have h2 : dlookup x (dinsert k v l) = none := by
      rw [dlookup_dinsert_ne _ _ _ _ (Ne.symm hx)]
      exact h1
    exact (dlookup_eq_none_iff.mp h2) h

theorem dkeys_derase_sublist {α : Type} (k : String) (l : List (String × α)) :
    (dkeys (derase k l)).Sublist (dkeys l) := by
  induction l with
  | nil => simp [derase]
  | cons p rest ih =>
    obtain ⟨k₀, v₀⟩ := p
    by_cases he : k₀ = k
    · simp only [derase, if_pos he]
      exact ih.trans (List.sublist_cons_self _ _)
    · simp only [derase, if_neg he]
      exact ih.cons₂ _

theorem not_mem_allAgentIds_of_findAgent_none
    (pools : List (String × List (String × Agent))) (k : String) :
    findAgent pools k = none → k ∉ allAgentIds pools := by
  induction pools with
  | nil =>
    intro _
    simp [allAgentIds]
  | cons p rest ih =>
    obtain ⟨ty₀, pool₀⟩ := p
    intro h
    cases h0 : dlookup k pool₀ with
    | some a => simp [findAgent, h0] at h
    | none =>
      have hr : findAgent rest k = none := by simpa [findAgent, h0] using h
      intro hmem
      rcases List.mem_append.mp
          (show k ∈ dkeys pool₀ ++ allAgentIds rest from hmem) with h2 | h2
      · exact (dlookup_eq_none_iff.mp h0) h2
      · exact ih hr h2

theorem findAgent_none_iff (pools : List (String × List (String × Agent)))
    (k : String) : findAgent pools k = none ↔ k ∉ allAgentIds pools :=
  ⟨not_mem_allAgentIds_of_findAgent_none pools k, findAgent_eq_none_of_not_mem⟩

theorem findAgent_dupdate_dinsert_ne
    (pools : List (String × List (String × Agent))) (ty k j : String) (v : Agent)
    (h : j ≠ k) :
    findAgent (dupdate ty (fun pool => dinsert k v pool) pools) j =
      findAgent pools j := by
  induction pools with
  | nil => simp [dupdate]
  | cons p rest ih =>
    obtain ⟨ty₀, pool₀⟩ := p
    by_cases he : ty₀ = ty
    · subst he
      simp [dupdate, findAgent, dlookup_dinsert_ne _ _ _ _ (Ne.symm h)]
    · simp [dupdate, he, findAgent, ih]

theorem findAgent_dupdate_dinsert_self
    (pools : List (String × List (String × Agent))) (ty k : String) (v : Agent)
    (hnone : findAgent pools k = none) (hty : dmem ty pools = true) :
    findAgent (dupdate ty (fun pool => dinsert k v pool) pools) k =
      some (ty, v) := by
  induction pools with
  | nil => simp [dmem, dlookup] at hty
  | cons p rest ih =>
    obtain ⟨ty₀, pool₀⟩ := p
    have h0 : dlookup k pool₀ = none := by
      cases h0 : dlookup k pool₀ with
      | none => rfl
      | some a => simp [findAgent, h0] at hnone
    by_cases he : ty₀ = ty
    · subst he
      simp [dupdate, findAgent, dlookup_dinsert_self]
    · have hrest : findAgent rest k = none := by
        simpa [findAgent, h0] using hnone
      have htyrest : dmem ty rest = true := by
        simpa [dmem, dlookup, he] using hty
      simp [dupdate, he, findAgent, h0]
      exact ih hrest htyrest

theorem mem_allAgentIds_dupdate_dinsert
    {pools : List (String × List (String × Agent))} {ty k x : String} {v : Agent}
    (h : x ∈ allAgentIds (dupdate ty (fun pool => dinsert k v pool) pools)) :
    x ∈ allAgentIds pools ∨ x = k := by
  induction pools with
  | nil => simp [dupdate, allAgentIds] at h
  | cons p rest ih =>
    obtain ⟨ty₀, pool₀⟩ := p
    by_cases he : ty₀ = ty
    · subst he
      simp only [dupdate, if_pos rfl] at h
      have h' : x ∈ dkeys (dinsert k v pool₀) ++ allAgentIds rest := h
      rcases List.mem_append.mp h' with h2 | h2
      · rcases dkeys_dinsert_sub _ _ _ _ h2 with h3 | h3
        · exact Or.inl (List.mem_append.mpr (Or.inl h3))
        · exact Or.inr h3
      · exact Or.inl (List.mem_append.mpr (Or.inr h2))
    · simp only [dupdate, if_neg he] at h
      have h' : x ∈ dkeys pool₀ ++
          allAgentIds (dupdate ty (fun pool => dinsert k v pool) rest) := h
      rcases List.mem_append.mp h' with h2 | h2
      · exact Or.inl (List.mem_append.mpr (Or.inl h2))
      · rcases ih h2 with h3 | h3
        · exact Or.inl (List.mem_append.mpr (Or.inr h3))
        · exact Or.inr h3

theorem allAgentIds_insert_nodup
    (pools : List (String × List (String × Agent))) (ty k : String) (v : Agent)
    (hnd : (allAgentIds pools).Nodup) (hk : k ∉ allAgentIds pools) :
    (allAgentIds (dupdate ty (fun pool => dinsert k v pool) pools)).Nodup := by
  induction pools with
  | nil => simp [dupdate, allAgentIds]
  | cons p rest ih =>
    obtain ⟨ty₀, pool₀⟩ := p
    have hnd1 : (dkeys pool₀ ++ allAgentIds rest).Nodup := hnd
    have hk1 : k ∉ dkeys pool₀ ∧ k ∉ allAgentIds rest := by
      constructor <;> intro hmem <;>
        exact hk (List.mem_append.mpr (by tauto))
    by_cases he : ty₀ = ty
    · subst he
      simp only [dupdate, if_pos rfl]
      show (dkeys (dinsert k v pool₀) ++ allAgentIds rest).Nodup
      rw [dkeys_dinsert_of_not_mem _ _ _ hk1.1, List.append_assoc,
        List.singleton_append]
      exact List.nodup_middle.mpr (List.nodup_cons.mpr ⟨by
        intro hmem
        rcases List.mem_append.mp hmem with h | h
        · exact hk1.1 h
        · exact hk1.2 h, hnd1⟩)
    · simp only [dupdate, if_neg he]
      show (dkeys pool₀ ++
        allAgentIds (dupdate ty (fun pool => dinsert k v pool) rest)).Nodup
      refine List.Nodup.append hnd1.of_append_left
        (ih hnd1.of_append_right hk1.2) ?_
      intro x hx hx2
      rcases mem_allAgentIds_dupdate_dinsert hx2 with h3 | h3
      · exact (List.disjoint_of_nodup_append hnd1) hx h3
      · subst h3
        exact hk1.1 hx

theorem allAgentIds_dupdate_derase_sublist
    (pools : List (String × List (String × Agent))) (ty k : String) :
    (allAgentIds (dupdate ty (fun pool => derase k pool) pools)).Sublist
      (allAgentIds pools) := by
  induction pools with
  | nil => simp [dupdate]
  | cons p rest ih =>
    obtain ⟨ty₀, pool₀⟩ := p
    by_cases he : ty₀ = ty
    · subst he
      simp only [dupdate, if_pos rfl]
      show (dkeys (derase k pool₀) ++ allAgentIds rest).Sublist
        (dkeys pool₀ ++ allAgentIds rest)
      exact (dkeys_derase_sublist _ _).append (List.Sublist.refl _)
    · simp only [dupdate, if_neg he]
      show (dkeys pool₀ ++
        allAgentIds (dupdate ty (fun pool => derase k pool) rest)).Sublist
        (dkeys pool₀ ++ allAgentIds rest)
      exact (List.Sublist.refl _).append ih

/-! ## C6: preservation of the registry invariant -/

theorem AMInv_assignTask (s : AgentManagerState) (b t : String) (now : Nat)
    (h : AMInv s) : AMInv (assignTask s b t now).2.1 := by
  obtain ⟨hpk, hids, hbusy⟩ := h
  cases hfa : findAgent s.agents b with
  | none => simpa [assignTask, hfa] using ⟨hpk, hids, hbusy⟩
  | some p =>
    obtain ⟨ty, ag⟩ := p
    by_cases hst : ag.state = .idle ∨ ag.state = .running
    · simp only [assignTask, hfa]
      rw [if_pos hst]
      simp only [updateAgentState, findAgent_updateAgentIn_self, hfa,
        Option.map_some', updateAgentIn_comp]
      refine ⟨?_, ?_, ?_⟩
      · rw [dkeys_updateAgentIn]
        exact hpk
      · rw [allAgentIds_updateAgentIn]
        exact hids
      · intro id ty' a hfa'
        by_cases hid : id = b
        · subst hid
          rw [findAgent_updateAgentIn_self, hfa] at hfa'
          simp at hfa'
          obtain ⟨h1, h2⟩ := hfa'
          subst h2
          intro _
          simp
        · rw [findAgent_updateAgentIn_ne _ _ _ _ hid] at hfa'
          exact hbusy id ty' a hfa'
    · simpa [assignTask, hfa, hst] using ⟨hpk, hids, hbusy⟩

theorem AMInv_amCompleteTask (s : AgentManagerState) (b t res : String) (now : Nat)
    (h : AMInv s) : AMInv (amCompleteTask s b t res now).2.1 := by
  obtain ⟨hpk, hids, hbusy⟩ := h
  cases hfa : findAgent s.agents b with
  | none => simpa [amCompleteTask, hfa] using ⟨hpk, hids, hbusy⟩
  | some p =>
    obtain ⟨ty, ag⟩ := p
    by_cases htm : t ∈ ag.currentTasks
    · by_cases herase : ag.currentTasks.erase t = []
      · simp only [amCompleteTask, hfa, if_pos htm, if_pos herase, updateAgentState,
          findAgent_updateAgentIn_self, Option.map_some', updateAgentIn_comp]
        refine ⟨?_, ?_, ?_⟩
        · rw [dkeys_updateAgentIn]
          exact hpk
        · rw [allAgentIds_updateAgentIn]
          exact hids
        · intro id ty' a hfa'
          by_cases hid : id = b
          · subst hid
            rw [findAgent_updateAgentIn_self, hfa] at hfa'
            simp at hfa'
            obtain ⟨h1, h2⟩ := hfa'
            subst h2
            intro _
            simp [herase]
          · rw [findAgent_updateAgentIn_ne _ _ _ _ hid] at hfa'
            exact hbusy id ty' a hfa'
      · simp only [amCompleteTask, hfa, if_pos htm, if_neg herase]
        refine ⟨?_, ?_, ?_⟩
        · rw [dkeys_updateAgentIn]
          exact hpk
        · rw [allAgentIds_updateAgentIn]
          exact hids
        · intro id ty' a hfa'
          by_cases hid : id = b
          · subst hid
            rw [findAgent_updateAgentIn_self, hfa] at hfa'
            simp at hfa'
            obtain ⟨h1, h2⟩ := hfa'
            subst h2
            intro _
            have hag := hbusy id ty ag hfa
            have hne : ag.state ≠ .error := by simpa using ‹_›
            have hstb : ag.state = .busy :=
              (hag hne).mpr (List.ne_nil_of_mem htm)
            simpa [hstb] using herase
          · rw [findAgent_updateAgentIn_ne _ _ _ _ hid] at hfa'
            exact hbusy id ty' a hfa'
    · simpa [amCompleteTask, hfa, htm] using ⟨hpk, hids, hbusy⟩

theorem AMInv_amFailTask (s : AgentManagerState) (b t err : String) (now : Nat)
    (h : AMInv s) : AMInv (amFailTask s b t err now).2.1 := by
  obtain ⟨hpk, hids, hbusy⟩ := h
  cases hfa : findAgent s.agents b with
  | none => simpa [amFailTask, hfa] using ⟨hpk, hids, hbusy⟩
  | some p =>
    obtain ⟨ty, ag⟩ := p
    by_cases htm : t ∈ ag.currentTasks
    · by_cases herase : ag.currentTasks.erase t = []
      · simp only [amFailTask, hfa, if_pos htm, if_pos herase, updateAgentState,
          findAgent_updateAgentIn_self, Option.map_some', updateAgentIn_comp]
        refine ⟨?_, ?_, ?_⟩
        · rw [dkeys_updateAgentIn]
          exact hpk
        · rw [allAgentIds_updateAgentIn]
          exact hids
        · intro id ty' a hfa'
          by_cases hid : id = b
          · subst hid
            rw [findAgent_updateAgentIn_self, hfa] at hfa'
            simp at hfa'
            obtain ⟨h1, h2⟩ := hfa'
            subst h2
            intro _
            simp [herase]
          · rw [findAgent_updateAgentIn_ne _ _ _ _ hid] at hfa'
            exact hbusy id ty' a hfa'
      · simp only [amFailTask, hfa, if_pos htm, if_neg herase]
        refine ⟨?_, ?_, ?_⟩
        · rw [dkeys_updateAgentIn]
          exact hpk
        · rw [allAgentIds_updateAgentIn]
          exact hids
        · intro id ty' a hfa'
          by_cases hid : id = b
          · subst hid
            rw [findAgent_updateAgentIn_self, hfa] at hfa'
            simp at hfa'
            obtain ⟨h1, h2⟩ := hfa'
            subst h2
            intro _
            have hag := hbusy id ty ag hfa
            have hne : ag.state ≠ .error := by simpa using ‹_›
            have hstb : ag.state = .busy :=
              (hag hne).mpr (List.ne_nil_of_mem htm)
            simpa [hstb] using herase
          · rw [findAgent_updateAgentIn_ne _ _ _ _ hid] at hfa'
            exact hbusy id ty' a hfa'
    · simpa [amFailTask, hfa, htm] using ⟨hpk, hids, hbusy⟩

theorem AMInv_updateHeartbeat (s : AgentManagerState) (b : String) (now : Nat)
    (h : AMInv s) : AMInv (updateHeartbeat s b now).2.1 := by
  obtain ⟨hpk, hids, hbusy⟩ := h
  cases hfa : findAgent s.agents b with
  | none => simpa [updateHeartbeat, hfa] using ⟨hpk, hids, hbusy⟩
  | some p =>
    obtain ⟨ty, ag⟩ := p
    have hcore : ∀ f : Agent → Agent,
        (∀ a', agentBusyOk a' → agentBusyOk (f a')) →
        AMInv { s with agents := updateAgentIn s.agents b f } := by
      intro f hf
      refine ⟨?_, ?_, ?_⟩
      · rw [dkeys_updateAgentIn]
        exact hpk
      · rw [allAgentIds_updateAgentIn]
        exact hids
      · intro id ty' a hfa'
        by_cases hid : id = b
        · subst hid
          rw [findAgent_updateAgentIn_self] at hfa'
          cases hfa2 : findAgent s.agents id with
          | none => simp [hfa2] at hfa'
          | some q =>
            rw [hfa2] at hfa'
            simp at hfa'
            obtain ⟨h1, h2⟩ := hfa'
            subst h2
            exact hf q.2 (hbusy id q.1 q.2 (by rw [hfa2]))
        · rw [findAgent_updateAgentIn_ne _ _ _ _ hid] at hfa'
          exact hbusy id ty' a hfa'
    by_cases hst : ag.state = .error
    · by_cases htk : ag.currentTasks ≠ []
      · simp only [updateHeartbeat, hfa, if_pos hst, if_pos htk, updateAgentState,
          findAgent_updateAgentIn_self, hfa, Option.map_some', updateAgentIn_comp]
        refine ⟨?_, ?_, ?_⟩
        · rw [dkeys_updateAgentIn]
          exact hpk
        · rw [allAgentIds_updateAgentIn]
          exact hids
        · intro id ty' a hfa'
          by_cases hid : id = b
          · subst hid
            rw [findAgent_updateAgentIn_self, hfa] at hfa'
            simp at hfa'
            obtain ⟨h1, h2⟩ := hfa'
            subst h2
            intro _
            simpa using htk
          · rw [findAgent_updateAgentIn_ne _ _ _ _ hid] at hfa'
            exact hbusy id ty' a hfa'
      · simp only [updateHeartbeat, hfa, if_pos hst, if_neg htk, updateAgentState,
          findAgent_updateAgentIn_self, hfa, Option.map_some', updateAgentIn_comp]
        refine ⟨?_, ?_, ?_⟩
        · rw [dkeys_updateAgentIn]
          exact hpk
        · rw [allAgentIds_updateAgentIn]
          exact hids
        · intro id ty' a hfa'
          by_cases hid : id = b
          · subst hid
            rw [findAgent_updateAgentIn_self, hfa] at hfa'
            simp at hfa'
            obtain ⟨h1, h2⟩ := hfa'
            subst h2
            intro _
            simp at htk
            simp [htk]
          · rw [findAgent_updateAgentIn_ne _ _ _ _ hid] at hfa'
            exact hbusy id ty' a hfa'
    · simp only [updateHeartbeat, hfa, if_neg hst]
      exact hcore _ (fun a' ha' => ha')

theorem AMInv_stopAgent (s : AgentManagerState) (b : String) (now : Nat)
    (h : AMInv s) : AMInv (stopAgent s b now).2.1 := by
  obtain ⟨hpk, hids, hbusy⟩ := h
  cases hfa : findAgent s.agents b with
  | none => simpa [stopAgent, hfa] using ⟨hpk, hids, hbusy⟩
  | some p =>
    obtain ⟨ty, ag⟩ := p
    simp only [stopAgent, hfa, updateAgentState, findAgent_updateAgentIn_self,
      Option.map_some', updateAgentIn_comp]
    have hpk2 : (dkeys (updateAgentIn s.agents b
        (fun a => { a with state := AgentState.stopped }))).Nodup := by
      rw [dkeys_updateAgentIn]
      exact hpk
    have hids2 : (allAgentIds (updateAgentIn s.agents b
        (fun a => { a with state := AgentState.stopped }))).Nodup := by
      rw [allAgentIds_updateAgentIn]
      exact hids
    refine ⟨?_, ?_, ?_⟩
    · rw [dkeys_dupdate, dkeys_updateAgentIn]
      exact hpk
    · exact (allAgentIds_dupdate_derase_sublist _ _ _).nodup hids2
    · intro id ty' a hfa'
      by_cases hid : id = b
      · subst hid
        have hfa2 : findAgent (updateAgentIn s.agents id
            (fun a => { a with state := AgentState.stopped })) id =
            some (ty, { ag with state := AgentState.stopped }) := by
          rw [findAgent_updateAgentIn_self, hfa]
          rfl
        rw [findAgent_remove_self hpk2 hids2 hfa2] at hfa'
        exact absurd hfa' (by simp)
      · rw [findAgent_remove_ne _ _ _ _ hid,
          findAgent_updateAgentIn_ne _ _ _ _ hid] at hfa'
        exact hbusy id ty' a hfa'

theorem AMInv_startAgent (s : AgentManagerState) (agentType b : String) (now : Nat)
    (hpool : dmem agentType s.agents = true)
    (hfresh : findAgent s.agents b = none)
    (h : AMInv s) : AMInv (startAgent s agentType b now).1 := by
  obtain ⟨hpk, hids, hbusy⟩ := h
  have hnotmem : b ∉ allAgentIds s.agents :=
    not_mem_allAgentIds_of_findAgent_none _ _ hfresh
  have hfa1 : findAgent (dupdate agentType
      (fun pool => dinsert b
        { id := b, type := agentType, state := AgentState.starting,
          startedAt := now, lastHeartbeat := now, currentTasks := [] } pool)
      s.agents) b =
      some (agentType,
        { id := b, type := agentType, state := AgentState.starting,
          startedAt := now, lastHeartbeat := now, currentTasks := [] }) :=
    findAgent_dupdate_dinsert_self _ _ _ _ hfresh hpool
  simp only [startAgent, updateAgentState, hfa1, Option.map_some']
  refine ⟨?_, ?_, ?_⟩
  · rw [dkeys_updateAgentIn, dkeys_dupdate]
    exact hpk
  · rw [allAgentIds_updateAgentIn]
    exact allAgentIds_insert_nodup _ _ _ _ hids hnotmem
  · intro id ty' a hfa'
    by_cases hid : id = b
    · subst hid
      rw [findAgent_updateAgentIn_self, hfa1] at hfa'
      simp at hfa'
      obtain ⟨h1, h2⟩ := hfa'
      subst h2
      intro _
      simp
    · rw [findAgent_updateAgentIn_ne _ _ _ _ hid,
        findAgent_dupdate_dinsert_ne _ _ _ _ _ hid] at hfa'
      exact hbusy id ty' a hfa'

theorem dkeys_sweepAgent (s : AgentManagerState) (ty b : String) (now : Nat) :
    dkeys ((sweepAgent s ty b now).1).agents = dkeys s.agents := by
  cases hb : findAgent s.agents b with
  | none => simp [sweepAgent, hb]
  | some p =>
    obtain ⟨ty₀, ag⟩ := p
    by_cases hskip : ag.state = .starting ∨ ag.state = .stopping ∨ ag.state = .stopped
    · simp [sweepAgent, hb, hskip]
    · by_cases hstale : now - ag.lastHeartbeat > 60
      · by_cases htasks : ag.currentTasks = []
        · simp [sweepAgent, hb, hskip, hstale, updateAgentState, handleAgentFailure,
            findAgent_updateAgentIn_self, htasks, dkeys_updateAgentIn]
        · simp [sweepAgent, hb, hskip, hstale, updateAgentState, handleAgentFailure,
            findAgent_updateAgentIn_self, updateAgentIn_comp, htasks,
            dkeys_updateAgentIn]
      · simp [sweepAgent, hb, hskip, hstale]

theorem allAgentIds_sweepAgent (s : AgentManagerState) (ty b : String) (now : Nat) :
    allAgentIds ((sweepAgent s ty b now).1).agents = allAgentIds s.agents := by
  cases hb : findAgent s.agents b with
  | none => simp [sweepAgent, hb]
  | some p =>
    obtain ⟨ty₀, ag⟩ := p
    by_cases hskip : ag.state = .starting ∨ ag.state = .stopping ∨ ag.state = .stopped
    · simp [sweepAgent, hb, hskip]
    · by_cases hstale : now - ag.lastHeartbeat > 60
      · by_cases htasks : ag.currentTasks = []
        · simp [sweepAgent, hb, hskip, hstale, updateAgentState, handleAgentFailure,
            findAgent_updateAgentIn_self, htasks, allAgentIds_updateAgentIn]
        · simp [sweepAgent, hb, hskip, hstale, updateAgentState, handleAgentFailure,
            findAgent_updateAgentIn_self, updateAgentIn_comp, htasks,
            allAgentIds_updateAgentIn]
      · simp [sweepAgent, hb, hskip, hstale]

theorem findAgent_sweepAgent_cases (s : AgentManagerState) (ty b : String)
    (now : Nat) (id ty' : String) (a : Agent)
    (h : findAgent ((sweepAgent s ty b now).1).agents id = some (ty', a)) :
    findAgent s.agents id = some (ty', a) ∨ a.state = .error := by
  by_cases hid : id = b
  · subst hid
    cases hb : findAgent s.agents id with
    | none =>
      simp only [sweepAgent, hb] at h
      exact Or.inl h
    | some p =>
      obtain ⟨ty₀, ag⟩ := p
      by_cases hskip : ag.state = .starting ∨ ag.state = .stopping ∨
          ag.state = .stopped
      · simp only [sweepAgent, hb, if_pos hskip] at h
        exact Or.inl h
      · by_cases hstale : now - ag.lastHeartbeat > 60
        · by_cases htasks : ag.currentTasks = []
          · simp only [sweepAgent, hb, if_neg hskip, if_pos hstale,
              updateAgentState, findAgent_updateAgentIn_self, hb,
              Option.map_some', handleAgentFailure, htasks, if_pos] at h
            simp at h
            obtain ⟨h1, h2⟩ := h
            subst h2
            exact Or.inr rfl
          · simp only [sweepAgent, hb, if_neg hskip, if_pos hstale,
              updateAgentState, findAgent_updateAgentIn_self, hb,
              Option.map_some', handleAgentFailure, htasks, if_neg,
              updateAgentIn_comp] at h
            simp [findAgent_updateAgentIn_self, hb] at h
            obtain ⟨h1, h2⟩ := h
            subst h2
            exact Or.inr rfl
        · simp only [sweepAgent, hb, if_neg hskip, if_neg hstale] at h
          exact Or.inl h
  · rw [sweepAgent_frame _ _ _ _ _ hid] at h
    exact Or.inl h

theorem AMInv_sweepAgent (s : AgentManagerState) (ty b : String) (now : Nat)
    (h : AMInv s) : AMInv (sweepAgent s ty b now).1 := by
  obtain ⟨hpk, hids, hbusy⟩ := h
  refine ⟨?_, ?_, ?_⟩
  · rw [dkeys_sweepAgent]
    exact hpk
  · rw [allAgentIds_sweepAgent]
    exact hids
  · intro id ty' a hfa'
    rcases findAgent_sweepAgent_cases s ty b now id ty' a hfa' with h2 | h2
    · exact hbusy id ty' a h2
    · intro hne
      exact absurd h2 hne

theorem AMInv_sweepPool (s : AgentManagerState) (ty : String) (ids : List String)
    (now : Nat) (h : AMInv s) : AMInv (sweepPool s ty ids now).1 := by
  induction ids generalizing s with
  | nil => simpa [sweepPool] using h
  | cons b rest ih =>
    simp only [sweepPool]
    exact ih _ (AMInv_sweepAgent s ty b now h)

theorem AMInv_sweepPools (s : AgentManagerState)
    (snapshot : List (String × List String)) (now : Nat)
    (h : AMInv s) : AMInv (sweepPools s snapshot now).1 := by
  induction snapshot generalizing s with
  | nil => simpa [sweepPools] using h
  | cons g rest ih =>
    obtain ⟨ty, ids⟩ := g
    simp only [sweepPools]
    exact ih _ (AMInv_sweepPool s ty ids now h)

theorem AMInv_checkAgentHealth (s : AgentManagerState) (now : Nat)
    (h : AMInv s) : AMInv (checkAgentHealth s now).1 := by
  by_cases hrun : now - s.lastHealthCheck < healthCheckInterval
  · simpa [checkAgentHealth, hrun] using h
  · simp only [checkAgentHealth, if_neg hrun]
    refine AMInv_sweepPools _ _ _ ?_
    exact h

theorem AMInv_assignLoop (tq : TaskQueueState) (am : AgentManagerState)
    (tasks : List Task) (avail : List String) (now : Nat)
    (h : AMInv am) : AMInv (assignLoop tq am tasks avail now).2.1 := by
  induction tasks generalizing tq am avail with
  | nil => simpa [assignLoop] using h
  | cons t ts ih =>
    cases avail with
    | nil => simpa [assignLoop] using h
    | cons b rest =>
      simp only [assignLoop]
      exact ih _ _ _ (AMInv_assignTask am b t.id now h)

theorem AMInv_processGroups (tq : TaskQueueState) (am : AgentManagerState)
    (groups : List (String × List Task)) (now : Nat)
    (h : AMInv am) : AMInv (processGroups tq am groups now).2.1 := by
  induction groups generalizing tq am with
  | nil => simpa [processGroups] using h
  | cons g rest ih =>
    obtain ⟨ty, ts⟩ := g
    simp only [processGroups]
    exact ih _ _ (AMInv_assignLoop tq am ts _ now h)

/-- C6: in every reachable registry state, every registered agent that is
not in ERROR satisfies BUSY ⇔ held-task set non-empty (in particular IDLE
implies the set is empty); reachability covers start, stop, assign, complete,
fail, heartbeat, the health sweep, and the scheduling pass, so each of them
preserves the invariant, while an ERROR agent is exempt until drained. -/
theorem c6_busy_iff_holding {s : AgentManagerState} (h : AMReachable s) :
    ∀ ty pool, (ty, pool) ∈ s.agents → ∀ p ∈ pool, p.2.state ≠ .error →
      (p.2.state = .busy ↔ p.2.currentTasks ≠ []) := by
  have hinv : AMInv s := by
    induction h with
    | init now =>
      refine ⟨?_, ?_, ?_⟩
      · show (dkeys initialPools).Nodup
        decide
      · show (allAgentIds initialPools).Nodup
        decide
      · intro id ty a hfa
        simp [AgentManagerState.init, initialPools, findAgent, dlookup] at hfa
    | step hr hstep ih =>
      cases hstep with
      | start s agentType agentId now pool fresh =>
        exact AMInv_startAgent _ agentType agentId now pool fresh ih
      | stop s agentId now => exact AMInv_stopAgent _ agentId now ih
      | assign s agentId taskId now => exact AMInv_assignTask _ agentId taskId now ih
      | complete s agentId taskId result now =>
        exact AMInv_amCompleteTask _ agentId taskId result now ih
      | fail s agentId taskId error now =>
        exact AMInv_amFailTask _ agentId taskId error now ih
      | heartbeat s agentId now => exact AMInv_updateHeartbeat _ agentId now ih
      | health s now => exact AMInv_checkAgentHealth _ now ih
      | pass tq s now => exact AMInv_processGroups tq _ _ now ih
  intro ty pool hpool p hp hne
  exact hinv.2.2 p.1 ty p.2 (findAgent_of_binding hinv.2.1 hpool
    (by simpa using hp)) hne

/-- C6, witness: after starting an idle agent and assigning it a task, the
registered agent is BUSY and holds exactly that task. -/
theorem c6_busy_iff_holding_witness :
    ({ id := "a1", type := "scraper", state := .busy, startedAt := 1,
       lastHeartbeat := 1, currentTasks := ["t1"] } : Agent).state = .busy ↔
    ({ id := "a1", type := "scraper", state := .busy, startedAt := 1,
       lastHeartbeat := 1, currentTasks := ["t1"] } : Agent).currentTasks ≠ [] :=
  c6_busy_iff_holding
    (AMReachable.step
      (AMReachable.step (AMReachable.init 0)
        (AMStep.start (AgentManagerState.init 0) "scraper" "a1" 1
          (by decide) (by decide)))
      (AMStep.assign _ "a1" "t1" 2))
    "scraper"
    [("a1", { id := "a1", type := "scraper", state := .busy, startedAt := 1,
              lastHeartbeat := 1, currentTasks := ["t1"] })]
    (by decide)
    ("a1", { id := "a1", type := "scraper", state := .busy, startedAt := 1,
             lastHeartbeat := 1, currentTasks := ["t1"] })
    (by decide) (by decide)

/-! ## C9: characterisation of the pending-task grouping -/

theorem dkeys_dinsert_of_mem {α : Type} (k : String) (v : α)
    (l : List (String × α)) (h : k ∈ dkeys l) :
    dkeys (dinsert k v l) = dkeys l := by
  induction l with
  | nil => simp [dkeys] at h
  | cons p rest ih =>
    obtain ⟨k₀, v₀⟩ := p
    by_cases he : k₀ = k
    · simp [dinsert, he, dkeys]
    · have h2 : k ∈ dkeys rest := by
        rcases (by simpa [dkeys] using h : k = k₀ ∨ k ∈ dkeys rest) with h2 | h2
        · exact absurd h2.symm he
        · exact h2
      simp [dinsert, he, dkeys]
      simpa [dkeys] using ih h2

theorem dkeys_groupInsert_nodup (m : List (String × List Task)) (ty : String)
    (t : Task) (h : (dkeys m).Nodup) : (dkeys (groupInsert m ty t)).Nodup := by
  cases hm : dlookup ty m with
  | none =>
    have hnot : ty ∉ dkeys m := dlookup_eq_none_iff.mp hm
    simp only [groupInsert, hm]
    rw [dkeys_dinsert_of_not_mem _ _ _ hnot]
    simpa [List.nodup_append] using ⟨h, fun hx => hnot hx⟩
  | some ts =>
    have hmem : ty ∈ dkeys m := dkeys_mem_of_dlookup_some hm
    simp only [groupInsert, hm]
    rw [dkeys_dinsert_of_mem _ _ _ hmem]
    exact h

theorem groupPending_fold_keys_nodup (l : List (String × Task))
    (m : List (String × List Task)) (h : (dkeys m).Nodup) :
    (dkeys (l.foldl (fun acc p => groupInsert acc p.2.agentType p.2) m)).Nodup := by
  induction l generalizing m with
  | nil => simpa using h
  | cons p rest ih =>
    simp only [List.foldl_cons]
    exact ih _ (dkeys_groupInsert_nodup m p.2.agentType p.2 h)

theorem groupPending_keys_nodup (pending : List (String × Task)) :
    (dkeys (groupPending pending)).Nodup :=
  groupPending_fold_keys_nodup pending [] (by simp [dkeys])

theorem groupPending_fold_some (l : List (String × Task))
    (m : List (String × List Task)) (ty : String) (ts : List Task)
    (h : dlookup ty m = some ts) :
    dlookup ty (l.foldl (fun acc p => groupInsert acc p.2.agentType p.2) m) =
      some (ts ++ (l.map Prod.snd).filter (fun t => t.agentType == ty)) := by
  induction l generalizing m ts with
  | nil => simpa using h
  | cons p rest ih =>
    simp only [List.foldl_cons, List.map_cons, List.filter_cons]
    by_cases hty : p.2.agentType = ty
    · have hstep : dlookup ty (groupInsert m p.2.agentType p.2) =
          some (ts ++ [p.2]) := by
        rw [hty]
        simp [groupInsert, h, dlookup_dinsert_self]
      rw [ih _ _ hstep]
      simp [hty]
    · have hstep : dlookup ty (groupInsert m p.2.agentType p.2) = some ts := by
        cases hm : dlookup p.2.agentType m <;>
          simp [groupInsert, hm, dlookup_dinsert_ne _ _ _ _ hty, h]
      rw [ih _ _ hstep]
      simp [hty]

theorem groupPending_fold_none (l : List (String × Task))
    (m : List (String × List Task)) (ty : String)
    (h : dlookup ty m = none) :
    dlookup ty (l.foldl (fun acc p => groupInsert acc p.2.agentType p.2) m) =
      if ((l.map Prod.snd).filter (fun t => t.agentType == ty)) = [] then none
      else some ((l.map Prod.snd).filter (fun t => t.agentType == ty)) := by
  induction l generalizing m with
  | nil => simpa using h
  | cons p rest ih =>
    simp only [List.foldl_cons, List.map_cons, List.filter_cons]
    by_cases hty : p.2.agentType = ty
    · have hstep : dlookup ty (groupInsert m p.2.agentType p.2) = some [p.2] := by
        rw [hty]
        simp [groupInsert, h, dlookup_dinsert_self]
      rw [groupPending_fold_some _ _ _ _ hstep]
      simp [hty]
    · have hstep : dlookup ty (groupInsert m p.2.agentType p.2) = none := by
        cases hm : dlookup p.2.agentType m <;>
          simp [groupInsert, hm, dlookup_dinsert_ne _ _ _ _ hty, h]
      rw [ih _ hstep]
      have hc : (p.2.agentType == ty) = false := by
        simpa using hty
      rw [hc]
      simp

/-- Every group of groupPending is exactly the pending records of its agent
type, in order. -/
theorem groupPending_mem_eq {pending : List (String × Task)} {ty : String}
    {ts : List Task} (h : (ty, ts) ∈ groupPending pending) :
    ts = (pending.map Prod.snd).filter (fun t => t.agentType == ty) ∧ ts ≠ [] := by
  have hl : dlookup ty (groupPending pending) = some ts :=
    dlookup_of_mem h (groupPending_keys_nodup pending)
  rw [groupPending, groupPending_fold_none _ _ _ (by simp [dlookup])] at hl
  by_cases he : ((pending.map Prod.snd).filter (fun t => t.agentType == ty)) = []
  · simp [he] at hl
  · simp [he] at hl
    refine ⟨hl.symm, ?_⟩
    rw [hl] at he
    exact he

/-! ## C9: available-agent and pool-frame lemmas -/

theorem mem_getAvailableAgents {am : AgentManagerState} {ty b : String}
    (h : b ∈ getAvailableAgents am ty) :
    ∃ pool ag, dlookup ty am.agents = some pool ∧ (b, ag) ∈ pool ∧
      ag.state = .idle := by
  unfold getAvailableAgents at h
  cases hp : dlookup ty am.agents with
  | none => simp [hp] at h
  | some pool =>
    rw [hp] at h
    simp only [List.mem_map] at h
    obtain ⟨q, hq, hqb⟩ := h
    have hq2 := List.mem_filter.mp hq
    refine ⟨pool, q.2, rfl, ?_, by simpa using hq2.2⟩
    have : q = (b, q.2) := by
      rw [← hqb]
    rw [← this]
    exact hq2.1

theorem getAvailableAgents_nodup {am : AgentManagerState} {ty : String}
    (hnd : (allAgentIds am.agents).Nodup) :
    (getAvailableAgents am ty).Nodup := by
  unfold getAvailableAgents
  cases hp : dlookup ty am.agents with
  | none => simp
  | some pool =>
    have hpool : (ty, pool) ∈ am.agents := mem_of_dlookup hp
    have hkeys : (dkeys pool).Nodup := by
      refine List.Nodup.sublist ?_ hnd
      exact List.sublist_flatten_of_mem
        (List.mem_map_of_mem (fun p => dkeys p.2) hpool)
    refine List.Nodup.sublist ?_ hkeys
    exact ((List.filter_sublist pool).map Prod.fst)

theorem avail_findAgent {am : AgentManagerState} {ty b : String}
    (hnd : (allAgentIds am.agents).Nodup) (h : b ∈ getAvailableAgents am ty) :
    ∃ ag, findAgent am.agents b = some (ty, ag) ∧ ag.state = .idle := by
  obtain ⟨pool, ag, hp, hb, hidle⟩ := mem_getAvailableAgents h
  exact ⟨ag, findAgent_of_binding hnd (mem_of_dlookup hp) hb, hidle⟩

theorem dlookup_updateAgentIn_other_pool
    {pools : List (String × List (String × Agent))} {b ty : String} {ag : Agent}
    (hfa : findAgent pools b = some (ty, ag)) (f : Agent → Agent)
    {ty' : String} (hne : ty' ≠ ty) :
    dlookup ty' (updateAgentIn pools b f) = dlookup ty' pools := by
  induction pools with
  | nil => simp [updateAgentIn]
  | cons p rest ih =>
    obtain ⟨ty₀, pool₀⟩ := p
    by_cases hm : dmem b pool₀
    · have hsome : ∃ a, dlookup b pool₀ = some a := by
        simpa [dmem, Option.isSome_iff_exists] using hm
      obtain ⟨a, ha⟩ := hsome
      have hty0 : ty₀ = ty := by
        simp [findAgent, ha] at hfa
        exact hfa.1
      subst hty0
      simp [updateAgentIn, hm, dlookup, Ne.symm hne]
    · have hnone : dlookup b pool₀ = none := by
        simpa [dmem, Option.isSome_iff_exists,
          Option.eq_none_iff_forall_not_mem] using hm
      have hfar : findAgent rest b = some (ty, ag) := by
        simpa [findAgent, hnone] using hfa
      by_cases hh : ty₀ = ty'
      · simp [updateAgentIn, hm, dlookup, hh]
      · simp [updateAgentIn, hm, dlookup, hh, ih hfar]

theorem getAvailableAgents_congr {am am' : AgentManagerState} {ty : String}
    (h : dlookup ty am'.agents = dlookup ty am.agents) :
    getAvailableAgents am' ty = getAvailableAgents am ty := by
  unfold getAvailableAgents
  rw [h]

theorem assignLoop_cons (tq : TaskQueueState) (am : AgentManagerState)
    (t : Task) (ts : List Task) (b : String) (bs : List String) (now : Nat) :
    assignLoop tq am (t :: ts) (b :: bs) now =
      ((assignLoop (tqAssignTask tq t.id b now)
          (assignTask am b t.id now).2.1 ts bs now).1,
       (assignLoop (tqAssignTask tq t.id b now)
          (assignTask am b t.id now).2.1 ts bs now).2.1,
       (assignTask am b t.id now).2.2 ++
         (assignLoop (tqAssignTask tq t.id b now)
            (assignTask am b t.id now).2.1 ts bs now).2.2) := rfl

theorem assignTask_idle_state (am : AgentManagerState) (b taskId : String)
    (now : Nat) (ty : String) (ag : Agent)
    (hfab : findAgent am.agents b = some (ty, ag))
    (hidle : ag.state = AgentState.idle) :
    (assignTask am b taskId now).2.1 =
      { am with
          agents := updateAgentIn am.agents b
            (fun a =>
              { a with currentTasks := a.currentTasks ++ [taskId],
                       state := AgentState.busy }),
          agentTasks := agentTasksAdd am.agentTasks b taskId } := by
  simp [assignTask, hfab, hidle, updateAgentState, findAgent_updateAgentIn_self,
    updateAgentIn_comp]

/-- Behaviour of the inner assignment loop of process_pending_tasks on one
group: the first min(|tasks|, |idle agents|) tasks are paired in order, each
moved to processing stamped with its agent and handed to the registry (agent
BUSY, task appended); everything else — unpaired tasks, other task ids, other
agents, other pools — is untouched. -/
theorem assignLoop_spec (ty : String) (ts : List Task) (avail : List String)
    (tq : TaskQueueState) (am : AgentManagerState) (now : Nat)
    (h1 : ∀ t ∈ ts, dlookup t.id tq.pendingTasks = some t)
    (h2 : (ts.map Task.id).Nodup)
    (h3 : ∀ b ∈ avail, ∃ ag, findAgent am.agents b = some (ty, ag) ∧
        ag.state = AgentState.idle)
    (h4 : avail.Nodup) :
    (∀ pr ∈ ts.zip avail,
      dlookup pr.1.id (assignLoop tq am ts avail now).1.processingTasks =
        some { pr.1 with status := .processing, assignedTo := some pr.2,
                         updatedAt := now } ∧
      dlookup pr.1.id (assignLoop tq am ts avail now).1.pendingTasks = none ∧
      ∃ ag, findAgent am.agents pr.2 = some (ty, ag) ∧
        ag.state = AgentState.idle ∧
        findAgent (assignLoop tq am ts avail now).2.1.agents pr.2 =
          some (ty, { ag with currentTasks := ag.currentTasks ++ [pr.1.id],
                              state := AgentState.busy })) ∧
    (∀ t ∈ ts.drop avail.length,
      dlookup t.id (assignLoop tq am ts avail now).1.pendingTasks = some t) ∧
    (∀ id, id ∉ ts.map Task.id →
      dlookup id (assignLoop tq am ts avail now).1.pendingTasks =
        dlookup id tq.pendingTasks ∧
      dlookup id (assignLoop tq am ts avail now).1.processingTasks =
        dlookup id tq.processingTasks) ∧
    (∀ b, b ∉ avail →
      findAgent (assignLoop tq am ts avail now).2.1.agents b =
        findAgent am.agents b) ∧
    (∀ ty', ty' ≠ ty →
      dlookup ty' (assignLoop tq am ts avail now).2.1.agents =
        dlookup ty' am.agents) ∧
    allAgentIds (assignLoop tq am ts avail now).2.1.agents =
      allAgentIds am.agents := by
  induction ts generalizing tq am avail with
  | nil => simp [assignLoop]
  | cons t ts ih =>
    cases avail with
    | nil =>
      refine ⟨by simp, ?_, by simp [assignLoop], by simp [assignLoop],
        by simp [assignLoop], by simp [assignLoop]⟩
      intro t' ht'
      simp only [assignLoop]
      exact h1 t' (by simpa using ht')
    | cons b bs =>
      obtain ⟨ag, hfab, hidle⟩ := h3 b (List.mem_cons_self _ _)
      have hlt : dlookup t.id tq.pendingTasks = some t :=
        h1 t (List.mem_cons_self _ _)
      have hproc1 : dlookup t.id (tqAssignTask tq t.id b now).processingTasks =
          some { t with status := .processing, assignedTo := some b,
                        updatedAt := now } := by
        simp [tqAssignTask, hlt, dlookup_dinsert_self]
      have hpend1 : dlookup t.id (tqAssignTask tq t.id b now).pendingTasks =
          none := by
        simp [tqAssignTask, hlt, dlookup_derase_self]
      have hpendf : ∀ id, id ≠ t.id →
          dlookup id (tqAssignTask tq t.id b now).pendingTasks =
            dlookup id tq.pendingTasks := by
        intro id hid
        simp [tqAssignTask, hlt, dlookup_derase_ne _ _ _ (Ne.symm hid)]
      have hprocf : ∀ id, id ≠ t.id →
          dlookup id (tqAssignTask tq t.id b now).processingTasks =
            dlookup id tq.processingTasks := by
        intro id hid
        simp [tqAssignTask, hlt, dlookup_dinsert_ne _ _ _ _ (Ne.symm hid)]
      have ham1 := assignTask_idle_state am b t.id now ty ag hfab hidle
      have hnd2 : t.id ∉ ts.map Task.id ∧ (ts.map Task.id).Nodup :=
        List.nodup_cons.mp (by simpa using h2)
      have hnd4 : b ∉ bs ∧ bs.Nodup := List.nodup_cons.mp h4
      have h1' : ∀ t' ∈ ts,
          dlookup t'.id (tqAssignTask tq t.id b now).pendingTasks = some t' := by
        intro t' ht'
        have hne : t'.id ≠ t.id := by
          intro he
          exact hnd2.1 (he ▸ List.mem_map_of_mem Task.id ht')
        rw [hpendf _ hne]
        exact h1 t' (List.mem_cons_of_mem _ ht')
      have h3' : ∀ b' ∈ bs, ∃ ag',
          findAgent (assignTask am b t.id now).2.1.agents b' = some (ty, ag') ∧
          ag'.state = AgentState.idle := by
        intro b' hb'
        obtain ⟨ag', hfa', hidle'⟩ := h3 b' (List.mem_cons_of_mem _ hb')
        have hneb : b' ≠ b := by
          intro he
          subst he
          exact hnd4.1 hb'
        refine ⟨ag', ?_, hidle'⟩
        simp only [ham1]
        rw [findAgent_updateAgentIn_ne _ _ _ _ hneb]
        exact hfa'
      obtain ⟨C1r, C2r, Fpr, Far, Ftr, Fir⟩ :=
        ih bs (tqAssignTask tq t.id b now) (assignTask am b t.id now).2.1
          h1' hnd2.2 h3' hnd4.2
      have hfnext : findAgent (assignTask am b t.id now).2.1.agents b =
          some (ty, { ag with currentTasks := ag.currentTasks ++ [t.id],
                              state := AgentState.busy }) := by
        simp only [ham1]
        rw [findAgent_updateAgentIn_self, hfab]
        rfl
      refine ⟨?_, ?_, ?_, ?_, ?_, ?_⟩
      · intro pr hpr
        simp only [List.zip_cons_cons] at hpr
        rcases List.mem_cons.mp hpr with hh | hh
        · subst hh
          refine ⟨?_, ?_, ⟨ag, hfab, hidle, ?_⟩⟩
          · simp only [assignLoop_cons]
            rw [(Fpr t.id hnd2.1).2]
            exact hproc1
          · simp only [assignLoop_cons]
            rw [(Fpr t.id hnd2.1).1]
            exact hpend1
          · simp only [assignLoop_cons]
            rw [Far b hnd4.1]
            exact hfnext
        · obtain ⟨hp1, hp2, ag', hfa', hidle', hfinal⟩ := C1r pr hh
          have hprb : pr.2 ∈ bs := (List.of_mem_zip hh).2
          have hneb : pr.2 ≠ b := by
            intro he
            rw [he] at hprb
            exact hnd4.1 hprb
          refine ⟨?_, ?_, ⟨ag', ?_, hidle', ?_⟩⟩
          · simpa only [assignLoop_cons] using hp1
          · simpa only [assignLoop_cons] using hp2
          · rw [← hfa']
            simp only [ham1]
            exact (findAgent_updateAgentIn_ne _ _ _ _ hneb).symm
          · simpa only [assignLoop_cons] using hfinal
      · intro t' ht'
        simp only [List.length_cons, List.drop_succ_cons] at ht'
        simpa only [assignLoop_cons] using C2r t' ht'
      · intro id hid
        simp only [List.map_cons, List.mem_cons, not_or] at hid
        constructor
        · simp only [assignLoop_cons]
          rw [(Fpr id hid.2).1]
          exact hpendf id hid.1
        · simp only [assignLoop_cons]
          rw [(Fpr id hid.2).2]
          exact hprocf id hid.1
      · intro b' hb'
        simp only [List.mem_cons, not_or] at hb'
        simp only [assignLoop_cons]
        rw [Far b' hb'.2]
        simp only [ham1]
        exact findAgent_updateAgentIn_ne _ _ _ _ hb'.1
      · intro ty' hty'
        simp only [assignLoop_cons]
        rw [Ftr ty' hty']
        simp only [ham1]
        exact dlookup_updateAgentIn_other_pool hfab _ hty'
      · simp only [assignLoop_cons]
        rw [Fir]
        simp only [ham1]
        exact allAgentIds_updateAgentIn _ _ _

theorem processGroups_cons (tq : TaskQueueState) (am : AgentManagerState)
    (ty : String) (ts : List Task) (rest : List (String × List Task))
    (now : Nat) :
    processGroups tq am ((ty, ts) :: rest) now =
      ((processGroups (assignLoop tq am ts (getAvailableAgents am ty) now).1
          (assignLoop tq am ts (getAvailableAgents am ty) now).2.1 rest now).1,
       (processGroups (assignLoop tq am ts (getAvailableAgents am ty) now).1
          (assignLoop tq am ts (getAvailableAgents am ty) now).2.1 rest now).2.1,
       (assignLoop tq am ts (getAvailableAgents am ty) now).2.2 ++
         (processGroups (assignLoop tq am ts (getAvailableAgents am ty) now).1
            (assignLoop tq am ts (getAvailableAgents am ty) now).2.1
            rest now).2.2) := rfl

/-- Behaviour of the outer loop of process_pending_tasks over the task
groups. -/
theorem processGroups_spec (groups : List (String × List Task))
    (tq : TaskQueueState) (am : AgentManagerState) (now : Nat)
    (g1 : ∀ g ∈ groups, ∀ t ∈ g.2, dlookup t.id tq.pendingTasks = some t)
    (g2 : ∀ g ∈ groups, (g.2.map Task.id).Nodup)
    (g3 : groups.Pairwise (fun g g' => ∀ t ∈ g.2, ∀ t' ∈ g'.2, t.id ≠ t'.id))
    (g4 : (groups.map Prod.fst).Nodup)
    (g5 : (allAgentIds am.agents).Nodup) :
    (∀ g ∈ groups,
      (∀ pr ∈ g.2.zip (getAvailableAgents am g.1),
        dlookup pr.1.id (processGroups tq am groups now).1.processingTasks =
          some { pr.1 with status := .processing, assignedTo := some pr.2,
                           updatedAt := now } ∧
        dlookup pr.1.id (processGroups tq am groups now).1.pendingTasks = none ∧
        ∃ ag, findAgent am.agents pr.2 = some (g.1, ag) ∧
          ag.state = AgentState.idle ∧
          findAgent (processGroups tq am groups now).2.1.agents pr.2 =
            some (g.1, { ag with currentTasks := ag.currentTasks ++ [pr.1.id],
                                 state := AgentState.busy })) ∧
      (∀ t ∈ g.2.drop (getAvailableAgents am g.1).length,
        dlookup t.id (processGroups tq am groups now).1.pendingTasks = some t)) ∧
    (∀ id, (∀ g ∈ groups, id ∉ g.2.map Task.id) →
      dlookup id (processGroups tq am groups now).1.pendingTasks =
        dlookup id tq.pendingTasks ∧
      dlookup id (processGroups tq am groups now).1.processingTasks =
        dlookup id tq.processingTasks) ∧
    (∀ b ty₀ ag₀, findAgent am.agents b = some (ty₀, ag₀) →
      ty₀ ∉ groups.map Prod.fst →
      findAgent (processGroups tq am groups now).2.1.agents b =
        findAgent am.agents b) ∧
    (∀ ty', ty' ∉ groups.map Prod.fst →
      dlookup ty' (processGroups tq am groups now).2.1.agents =
        dlookup ty' am.agents) ∧
    allAgentIds (processGroups tq am groups now).2.1.agents =
      allAgentIds am.agents := by
  induction groups generalizing tq am with
  | nil => simp [processGroups]
  | cons g rest ih =>
    obtain ⟨ty, ts⟩ := g
    have hpw : ∀ g' ∈ rest, ∀ t ∈ ts, ∀ t' ∈ g'.2, t.id ≠ t'.id :=
      fun g' hg' t ht t' ht' => (List.pairwise_cons.mp g3).1 g' hg' t ht t' ht'
    have hty_rest : ty ∉ rest.map Prod.fst := (List.nodup_cons.mp g4).1
    have avail := getAvailableAgents am ty
    have h3h : ∀ b ∈ getAvailableAgents am ty,
        ∃ ag, findAgent am.agents b = some (ty, ag) ∧
          ag.state = AgentState.idle :=
      fun b hb => avail_findAgent g5 hb
    obtain ⟨C1h, C2h, Fph, Fah, Fth, Fih⟩ :=
      assignLoop_spec ty ts (getAvailableAgents am ty) tq am now
        (g1 (ty, ts) (List.mem_cons_self _ _))
        (g2 (ty, ts) (List.mem_cons_self _ _)) h3h
        (getAvailableAgents_nodup g5)
    have g5' : (allAgentIds
        (assignLoop tq am ts (getAvailableAgents am ty) now).2.1.agents).Nodup := by
      rw [Fih]
      exact g5
    have hnotin : ∀ g' ∈ rest, ∀ t' ∈ g'.2, t'.id ∉ ts.map Task.id := by
      intro g' hg' t' ht' hmem
      obtain ⟨t, ht, hte⟩ := List.mem_map.mp hmem
      exact hpw g' hg' t ht t' ht' hte
    have g1' : ∀ g' ∈ rest, ∀ t' ∈ g'.2,
        dlookup t'.id
          (assignLoop tq am ts (getAvailableAgents am ty) now).1.pendingTasks =
          some t' := by
      intro g' hg' t' ht'
      rw [(Fph t'.id (hnotin g' hg' t' ht')).1]
      exact g1 g' (List.mem_cons_of_mem _ hg') t' ht'
    obtain ⟨C1r, Fpr, Far, Ftr, Fir⟩ :=
      ih (assignLoop tq am ts (getAvailableAgents am ty) now).1
        (assignLoop tq am ts (getAvailableAgents am ty) now).2.1
        g1' (fun g' hg' => g2 g' (List.mem_cons_of_mem _ hg'))
        (List.pairwise_cons.mp g3).2 (List.nodup_cons.mp g4).2 g5'
    -- availability of other types is unchanged by the head group
    have havail_rest : ∀ g' ∈ rest,
        getAvailableAgents
          (assignLoop tq am ts (getAvailableAgents am ty) now).2.1 g'.1 =
        getAvailableAgents am g'.1 := by
      intro g' hg'
      refine getAvailableAgents_congr ?_
      refine Fth g'.1 ?_
      intro he
      exact hty_rest (he ▸ List.mem_map_of_mem Prod.fst hg')
    have hfa_keep : ∀ (b ty₀ : String) (ag₀ : Agent),
        findAgent am.agents b = some (ty₀, ag₀) → ty₀ ≠ ty →
        findAgent
          (assignLoop tq am ts (getAvailableAgents am ty) now).2.1.agents b =
          findAgent am.agents b := by
      intro b ty₀ ag₀ hfa hne
      refine Fah b ?_
      intro hbav
      obtain ⟨ag₁, hfa1, _⟩ := avail_findAgent g5 hbav
      rw [hfa] at hfa1
      simp at hfa1
      exact hne hfa1.1
    refine ⟨?_, ?_, ?_, ?_, ?_⟩
    · intro g hg
      rcases List.mem_cons.mp hg with hh | hh
      · subst hh
        constructor
        · intro pr hpr
          have hprts : pr.1 ∈ ts := (List.of_mem_zip hpr).1
          have hprav : pr.2 ∈ getAvailableAgents am ty := (List.of_mem_zip hpr).2
          obtain ⟨hp1, hp2, ag, hfa, hidle, hfinal⟩ := C1h pr hpr
          have hidrest : ∀ g' ∈ rest, pr.1.id ∉ g'.2.map Task.id := by
            intro g' hg' hmem
            obtain ⟨t', ht', hte⟩ := List.mem_map.mp hmem
            exact hpw g' hg' pr.1 hprts t' ht' hte.symm
          refine ⟨?_, ?_, ⟨ag, hfa, hidle, ?_⟩⟩
          · simp only [processGroups_cons]
            rw [(Fpr pr.1.id hidrest).2]
            exact hp1
          · simp only [processGroups_cons]
            rw [(Fpr pr.1.id hidrest).1]
            exact hp2
          · simp only [processGroups_cons]
            rw [Far pr.2 ty
              { ag with currentTasks := ag.currentTasks ++ [pr.1.id],
                        state := AgentState.busy } hfinal hty_rest]
            exact hfinal
        · intro t ht
          have hidrest : ∀ g' ∈ rest, t.id ∉ g'.2.map Task.id := by
            intro g' hg' hmem
            obtain ⟨t', ht', hte⟩ := List.mem_map.mp hmem
            exact hpw g' hg' t (List.mem_of_mem_drop ht) t' ht' hte.symm
          simp only [processGroups_cons]
          rw [(Fpr t.id hidrest).1]
          exact C2h t ht
      · obtain ⟨R1, R2⟩ := C1r g hh
        have hav := havail_rest g hh
        constructor
        · intro pr hpr
          rw [← hav] at hpr
          obtain ⟨hp1, hp2, ag, hfa1, hidle, hfinal⟩ := R1 pr hpr
          refine ⟨?_, ?_, ⟨ag, ?_, hidle, ?_⟩⟩
          · simpa only [processGroups_cons] using hp1
          · simpa only [processGroups_cons] using hp2
          · -- the agent was already found with the same record before the head
            -- group ran, because its pool is not the head pool
            have hprav : pr.2 ∈ getAvailableAgents am g.1 := by
              rw [← hav]
              exact (List.of_mem_zip hpr).2
            obtain ⟨ag₂, hfa2, hidle2⟩ := avail_findAgent g5 hprav
            have hgty : g.1 ≠ ty := by
              intro he
              exact hty_rest (he ▸ List.mem_map_of_mem Prod.fst hh)
            rw [hfa_keep pr.2 g.1 ag₂ hfa2 hgty] at hfa1
            exact hfa1
          · simpa only [processGroups_cons] using hfinal
        · intro t ht
          rw [← hav] at ht
          simpa only [processGroups_cons] using R2 t ht
    · intro id hid
      have hidh : id ∉ ts.map Task.id := hid (ty, ts) (List.mem_cons_self _ _)
      have hidr : ∀ g' ∈ rest, id ∉ g'.2.map Task.id :=
        fun g' hg' => hid g' (List.mem_cons_of_mem _ hg')
      constructor
      · simp only [processGroups_cons]
        rw [(Fpr id hidr).1]
        exact (Fph id hidh).1
      · simp only [processGroups_cons]
        rw [(Fpr id hidr).2]
        exact (Fph id hidh).2
    · intro b ty₀ ag₀ hfa hty₀
      simp only [List.map_cons, List.mem_cons, not_or] at hty₀
      have hkeep := hfa_keep b ty₀ ag₀ hfa hty₀.1
      simp only [processGroups_cons]
      rw [Far b ty₀ ag₀ (by rw [hkeep]; exact hfa) hty₀.2]
      exact hkeep
    · intro ty' hty'
      simp only [List.map_cons, List.mem_cons, not_or] at hty'
      simp only [processGroups_cons]
      rw [Ftr ty' hty'.2]
      exact Fth ty' hty'.1
    · simp only [processGroups_cons]
      rw [Fir]
      exact Fih

theorem dlookup_unique {α : Type} {k : String} {v v' : α} {l : List (String × α)}
    (hnd : (dkeys l).Nodup) (h1 : (k, v) ∈ l) (h2 : (k, v') ∈ l) : v = v' := by
  have e1 := dlookup_of_mem h1 hnd
  have e2 := dlookup_of_mem h2 hnd
  rw [e1] at e2
  simpa using e2

theorem pairwise_strengthen {α : Type} {R S : α → α → Prop} {l : List α}
    (h : l.Pairwise R) (himp : ∀ a ∈ l, ∀ b ∈ l, R a b → S a b) :
    l.Pairwise S := by
  induction l with
  | nil => exact .nil
  | cons x rest ih =>
    obtain ⟨hx, hrest⟩ := List.pairwise_cons.mp h
    refine List.pairwise_cons.mpr ⟨?_, ih hrest ?_⟩
    · intro b hb
      exact himp x (List.mem_cons_self _ _) b (List.mem_cons_of_mem _ hb) (hx b hb)
    · intro a ha b hb hr
      exact himp a (List.mem_cons_of_mem _ ha) b (List.mem_cons_of_mem _ hb) hr

theorem nodup_map_fst_pairwise {α β : Type} {l : List (α × β)}
    (h : (l.map Prod.fst).Nodup) : l.Pairwise (fun g g' => g.1 ≠ g'.1) := by
  induction l with
  | nil => exact .nil
  | cons p rest ih =>
    rw [List.map_cons, List.nodup_cons] at h
    refine List.pairwise_cons.mpr ⟨?_, ih h.2⟩
    intro g' hg' he
    exact h.1 (he ▸ List.mem_map_of_mem Prod.fst hg')

theorem pendingValues_map_id (pending : List (String × Task))
    (hwk : ∀ p ∈ pending, p.2.id = p.1) :
    (pending.map Prod.snd).map Task.id = dkeys pending := by
  induction pending with
  | nil => rfl
  | cons p rest ih =>
    have hrest := ih (fun q hq => hwk q (List.mem_cons_of_mem _ hq))
    show p.2.id :: (rest.map Prod.snd).map Task.id = p.1 :: dkeys rest
    rw [hwk p (List.mem_cons_self _ _), hrest]

theorem groupPending_agentType {pending : List (String × Task)} {ty : String}
    {ts : List Task} (h : (ty, ts) ∈ groupPending pending) :
    ∀ t ∈ ts, t.agentType = ty := by
  intro t ht
  rw [(groupPending_mem_eq h).1] at ht
  have h2 := (List.mem_filter.mp ht).2
  simpa using h2

theorem group_task_binding {pending : List (String × Task)} {ty : String}
    {ts : List Task} (hwk : ∀ p ∈ pending, p.2.id = p.1)
    (h : (ty, ts) ∈ groupPending pending) :
    ∀ t ∈ ts, (t.id, t) ∈ pending := by
  intro t ht
  rw [(groupPending_mem_eq h).1] at ht
  have hmem := (List.mem_filter.mp ht).1
  obtain ⟨p, hp, hpe⟩ := List.mem_map.mp hmem
  have h1 : p.2 = t := hpe
  have h2 : p.1 = t.id := by
    rw [← h1]
    exact (hwk p hp).symm
  have hpt : p = (t.id, t) := by
    obtain ⟨a, b⟩ := p
    simp only at h1 h2
    rw [h1, h2]
  rw [← hpt]
  exact hp

theorem group_ids_nodup {pending : List (String × Task)} {ty : String}
    {ts : List Task} (hwk : ∀ p ∈ pending, p.2.id = p.1)
    (hpnd : (dkeys pending).Nodup) (h : (ty, ts) ∈ groupPending pending) :
    (ts.map Task.id).Nodup := by
  rw [(groupPending_mem_eq h).1]
  refine List.Nodup.sublist ((List.filter_sublist _).map Task.id) ?_
  rw [pendingValues_map_id pending hwk]
  exact hpnd

/-- C9: a scheduling pass groups the pending tasks by required capability
type; per group (tasks in pending order, idle agents of that capability in
pool order) tasks and agents are paired in FIFO order until either list is
exhausted; each paired task moves from pending to processing with assigned_to
stamped to its agent and the registry records the hand-off (the agent ends
BUSY holding the task id); every unpaired task remains pending with its
record unchanged. -/
theorem c9_scheduling_pass (tq : TaskQueueState) (am : AgentManagerState)
    (now : Nat)
    (hwk : ∀ p ∈ tq.pendingTasks, p.2.id = p.1)
    (hpnd : (dkeys tq.pendingTasks).Nodup)
    (hag : (allAgentIds am.agents).Nodup) :
    ∀ ty ts, (ty, ts) ∈ groupPending tq.pendingTasks →
      (∀ t ∈ ts, t.agentType = ty) ∧
      (∀ pr ∈ ts.zip (getAvailableAgents am ty),
        dlookup pr.1.id (processPendingTasks tq am now).1.processingTasks =
          some { pr.1 with status := .processing, assignedTo := some pr.2,
                           updatedAt := now } ∧
        dlookup pr.1.id (processPendingTasks tq am now).1.pendingTasks = none ∧
        ∃ ag, findAgent am.agents pr.2 = some (ty, ag) ∧
          ag.state = AgentState.idle ∧
          findAgent (processPendingTasks tq am now).2.1.agents pr.2 =
            some (ty, { ag with currentTasks := ag.currentTasks ++ [pr.1.id],
                                state := AgentState.busy })) ∧
      (∀ t ∈ ts.drop (getAvailableAgents am ty).length,
        dlookup t.id (processPendingTasks tq am now).1.pendingTasks = some t) := by
  have g1 : ∀ g ∈ groupPending tq.pendingTasks, ∀ t ∈ g.2,
      dlookup t.id tq.pendingTasks = some t := by
    intro g hg t ht
    exact dlookup_of_mem
      (group_task_binding hwk (by simpa using hg) t ht) hpnd
  have g2 : ∀ g ∈ groupPending tq.pendingTasks, (g.2.map Task.id).Nodup := by
    intro g hg
    exact group_ids_nodup hwk hpnd (by simpa using hg)
  have g4 : ((groupPending tq.pendingTasks).map Prod.fst).Nodup :=
    groupPending_keys_nodup tq.pendingTasks
  have g3 : (groupPending tq.pendingTasks).Pairwise
      (fun g g' => ∀ t ∈ g.2, ∀ t' ∈ g'.2, t.id ≠ t'.id) := by
    refine pairwise_strengthen (nodup_map_fst_pairwise g4) ?_
    intro g hg g' hg' hne t ht t' ht' heq
    have hb1 := group_task_binding hwk (show (g.1, g.2) ∈ _ by simpa using hg) t ht
    have hb2 := group_task_binding hwk
      (show (g'.1, g'.2) ∈ _ by simpa using hg') t' ht'
    rw [heq] at hb1
    have : t = t' := dlookup_unique hpnd hb1 hb2
    have ha1 := groupPending_agentType
      (show (g.1, g.2) ∈ _ by simpa using hg) t ht
    have ha2 := groupPending_agentType
      (show (g'.1, g'.2) ∈ _ by simpa using hg') t' ht'
    rw [this, ha2] at ha1
    exact hne ha1.symm
  obtain ⟨C1, Fp, Fa, Ft, Fi⟩ :=
    processGroups_spec (groupPending tq.pendingTasks) tq am now g1 g2 g3 g4 hag
  intro ty ts hg
  obtain ⟨R1, R2⟩ := C1 (ty, ts) hg
  refine ⟨groupPending_agentType hg, ?_, ?_⟩
  · intro pr hpr
    obtain ⟨hp1, hp2, ag, hfa, hidle, hfinal⟩ := R1 pr hpr
    exact ⟨hp1, hp2, ag, hfa, hidle, hfinal⟩
  · intro t ht
    exact R2 t ht

/-- Concrete pending task for the scheduling-pass witness. -/
def c9Task : Task :=
  { id := "tsk-9", type := "scrape_web", data := "d", status := .pending,
    createdAt := 0, updatedAt := 0, agentType := "scraper",
    assignedTo := none, result := none, error := none }

/-- Store holding c9Task in the pending partition only. -/
def c9Store : TaskQueueState :=
  { pendingTasks := [("tsk-9", c9Task)], processingTasks := [],
    completedTasks := [], failedTasks := [],
    taskHistory := [("tsk-9", [{ status := .pending, timestamp := 0,
                                 message := "Task created" }])] }

theorem c9_scheduling_pass_witness :
    (∀ p ∈ c9Store.pendingTasks, p.2.id = p.1) ∧
    (dkeys c9Store.pendingTasks).Nodup ∧
    (allAgentIds idleState1.agents).Nodup ∧
    ("scraper", [c9Task]) ∈ groupPending c9Store.pendingTasks ∧
    ((∀ t ∈ [c9Task], t.agentType = "scraper") ∧
     (∀ pr ∈ [c9Task].zip (getAvailableAgents idleState1 "scraper"),
       dlookup pr.1.id
           (processPendingTasks c9Store idleState1 7).1.processingTasks =
         some { pr.1 with status := .processing, assignedTo := some pr.2,
                          updatedAt := 7 } ∧
       dlookup pr.1.id
           (processPendingTasks c9Store idleState1 7).1.pendingTasks = none ∧
       ∃ ag, findAgent idleState1.agents pr.2 = some ("scraper", ag) ∧
         ag.state = AgentState.idle ∧
         findAgent (processPendingTasks c9Store idleState1 7).2.1.agents pr.2 =
           some ("scraper",
             { ag with currentTasks := ag.currentTasks ++ [pr.1.id],
                       state := AgentState.busy })) ∧
     (∀ t ∈ [c9Task].drop (getAvailableAgents idleState1 "scraper").length,
       dlookup t.id (processPendingTasks c9Store idleState1 7).1.pendingTasks =
         some t)) :=
  ⟨by decide, by decide, by decide, by decide,
   c9_scheduling_pass c9Store idleState1 7 (by decide) (by decide) (by decide)
     "scraper" [c9Task] (by decide)⟩

end IKP
